import Mathlib

/-!
# Verification of the todo store (`src/todo/src/lib.rs`)

A shallow embedding of the consistency-and-propagation core of the todo
application: the entity store (entries, notes, two id counters), the link
synchronizer (`sync_entry_note_links` / `sync_note_entry_links`), the
timescale classifier (`refresh_entry_timescale` / `compute_timescale`),
and the five mutating commands (`save_entry`, `toggle_entry_completion`,
`delete_entry`, `save_note`, `delete_note`).

Modelling conventions:
* Rust `String` is modelled as `List Char` (`Str`); `to_lowercase` as
  `List.map Char.toLower`; `str::contains` as an explicit substring scan;
  `str::trim` as dropping whitespace from both ends.
* `u64` ids and counters are modelled as `Nat` (the counters start at 1
  and only ever increment by one per creation; reaching `2 ^ 64` is not
  reachable in any execution this development quantifies over at concrete
  inputs, and the spec states the counters never wrap in practice).
* Timestamps (`i64` milliseconds) are `Int`.  The chrono conversion of a
  millisecond timestamp to a local calendar date
  (`Local.timestamp_millis_opt(...).date_naive()`) is modelled as an
  explicit conversion parameter `ld : Int → NDate` supplied to the
  commands together with `today` (the local date of `Local::now()`) and
  `now` (`now_ts()`); for the `Local` timezone the chrono conversion is
  always `LocalResult::Single`, so the conversion is total and the
  `Someday` fallback of the Rust `if let` is unreachable.
* Calendar dates (`chrono::NaiveDate`) are `NDate` triples (year, month,
  day) compared through their proleptic-Gregorian day number `toRd`
  (days since 0001-01-01); `weekday().number_from_monday()`,
  `Duration::days` addition and `last_day_of_month` are modelled at that
  day-number level.
* The websocket broadcast fan-out is modelled by the list of events a
  command emits, in emission order: per subscriber, delivery order equals
  this list.  The subscriber set and the spider fields do not affect the
  store and are omitted from the state.
* Fallible commands return the post state, the emitted events, and an
  `Except String` result; error paths return the state unchanged exactly
  where the Rust `return Err(...)` occurs.
-/

/-- Rust `String`, as a list of characters. -/
abbrev Str := List Char

/-- `str::trim` on the start of a string (Unicode whitespace modelled by
`Char.isWhitespace`). -/
def trimStart (s : Str) : Str := s.dropWhile Char.isWhitespace

/-- Rust `str::trim`: drop whitespace from both ends. -/
def trim (s : Str) : Str := ((trimStart s).reverse.dropWhile Char.isWhitespace).reverse

/-- `needle` occurs at the start of `hay` (helper for the substring scan). -/
def listStartsWith : Str → Str → Bool
  | _, [] => true
  | [], _ :: _ => false
  | c :: cs, d :: ds => c == d && listStartsWith cs ds

/-- Rust `str::contains(needle)`: `needle` occurs contiguously in `hay`. -/
def containsSub (hay needle : Str) : Bool :=
  match hay with
  | [] => needle.isEmpty
  | _ :: t => listStartsWith hay needle || containsSub t needle

/-- Rust `str::to_lowercase()`. -/
def lowerStr (s : Str) : Str := s.map Char.toLower

/-- Case-insensitive containment as used by `search_all`:
`field.to_lowercase().contains(&query_lower)`. -/
def containsCI (field query : Str) : Bool := containsSub (lowerStr field) (lowerStr query)

/-- The first line of a string: Rust `str::lines().next()` (split at `\n`,
with a `\r` stripped when it closes a `\r\n` ending). -/
def firstLine (s : Str) : Str :=
  let l := s.takeWhile (fun c => c ≠ '\n')
  if l.length < s.length ∧ l.getLast? = some '\r' then l.dropLast else l

/-- The default summary text used when a description is empty. -/
def noDescriptionText : Str := "No description yet.".toList

/-- `summarize_text` (src/todo/src/lib.rs:777): trimmed first line,
truncated to 120 characters, with a fixed fallback for empty input. -/
def summarize_text (text : Str) : Str :=
  let trimmed := trim text
  if trimmed = [] then noDescriptionText
  else (firstLine trimmed).take 120

/-- `random_accent_for` (src/todo/src/lib.rs:796): a fixed lookup from tag
keywords to color tokens. -/
def random_accent_for (tags : List Str) : Str :=
  if tags.any (fun t => containsSub t ("Focus".toList)) then "#c7d2fe".toList
  else if tags.any (fun t => containsSub t ("Sprint".toList)) then "#fee2e2".toList
  else "#e0f2fe".toList

/-! ## Calendar model (for `chrono::NaiveDate`) -/

/-- A proleptic-Gregorian calendar date (`chrono::NaiveDate`), restricted
to positive years (every date the application handles). -/
structure NDate where
  year : Nat
  month : Nat
  day : Nat
deriving DecidableEq, Repr

/-- Gregorian leap year. -/
def isLeap (y : Nat) : Bool := decide ((y % 4 = 0 ∧ y % 100 ≠ 0) ∨ y % 400 = 0)

/-- Number of days in a month. -/
def daysInMonth (y m : Nat) : Nat :=
  if m = 2 then (if isLeap y then 29 else 28)
  else if m = 4 ∨ m = 6 ∨ m = 9 ∨ m = 11 then 30
  else 31

/-- Days in year `y` before the first of month `m`. -/
def daysBeforeMonth (y : Nat) (m : Nat) : Nat :=
  let f := if isLeap y then 1 else 0
  match m with
  | 2 => 31
  | 3 => 59 + f
  | 4 => 90 + f
  | 5 => 120 + f
  | 6 => 151 + f
  | 7 => 181 + f
  | 8 => 212 + f
  | 9 => 243 + f
  | 10 => 273 + f
  | 11 => 304 + f
  | 12 => 334 + f
  | _ => 0

/-- Leap years in `[1, y]`. -/
def leapCount (y : Nat) : Nat := y / 4 - y / 100 + y / 400

/-- Day number of a date: days since 0001-01-01 (which is day 0, a
Monday).  `NaiveDate` ordering and day arithmetic are modelled through
this number. -/
def toRd (d : NDate) : Nat :=
  365 * (d.year - 1) + leapCount (d.year - 1) + daysBeforeMonth d.year d.month + (d.day - 1)

/-- `weekday().number_from_monday()`: Monday = 1 … Sunday = 7. -/
def isoWeekdayNumber (d : NDate) : Nat := toRd d % 7 + 1

/-- `last_day_of_month` (src/todo/src/lib.rs:768) at the day-number level:
the first day of the next month, stepped back one day (`.pred()`). -/
def last_day_of_month_rd (year month : Nat) : Nat :=
  let next_month := if month = 12 then 1 else month + 1
  let next_year := if month = 12 then year + 1 else year
  toRd ⟨next_year, next_month, 1⟩ - 1

/-- A date whose month and year are in range (day bounds are not needed by
any theorem below). -/
def ValidDate (d : NDate) : Prop := 1 ≤ d.month ∧ d.month ≤ 12 ∧ 1 ≤ d.year

instance (d : NDate) : Decidable (ValidDate d) := by
  unfold ValidDate
  infer_instance

/-! ## Data model -/

inductive EntryStatus
  | backlog | upNext | inProgress | blocked | review | done | archived
deriving DecidableEq, Repr

inductive EntryPriority
  | low | medium | high
deriving DecidableEq, Repr

inductive EntryTimescale
  | overdue | today | thisWeek | thisMonth | later | someday | completed
deriving DecidableEq, Repr

/-- `Entry` (src/todo/src/lib.rs:70). -/
structure Entry where
  id : Nat
  title : Str
  summary : Str
  description : Str
  project : Option Str
  status : EntryStatus
  timescale : EntryTimescale
  priority : EntryPriority
  due_ts : Option Int
  start_ts : Option Int
  dependencies : List Nat
  note_ids : List Nat
  assignees : List Str
  is_completed : Bool
  completed_at_ts : Option Int
deriving DecidableEq, Repr

/-- `EntryDraft` (src/todo/src/lib.rs:89): no completion or timescale
fields. -/
structure EntryDraft where
  id : Option Nat
  title : Str
  summary : Str
  description : Str
  project : Option Str
  status : EntryStatus
  priority : EntryPriority
  due_ts : Option Int
  start_ts : Option Int
  dependencies : List Nat
  note_ids : List Nat
  assignees : List Str
deriving DecidableEq, Repr

/-- `Note` (src/todo/src/lib.rs:105). -/
structure Note where
  id : Nat
  title : Str
  content : Str
  pinned : Bool
  tags : List Str
  linked_entry_ids : List Nat
  summary : Str
  accent : Str
  last_edited_ts : Int
deriving DecidableEq, Repr

/-- `NoteDraft` (src/todo/src/lib.rs:118). -/
structure NoteDraft where
  id : Option Nat
  title : Str
  content : Str
  pinned : Bool
  tags : List Str
  linked_entry_ids : List Nat
  accent : Option Str
deriving DecidableEq, Repr

/-- `TodoState` (src/todo/src/lib.rs:17), restricted to the store: the two
collections and the two id counters.  `connected_channels` only routes the
broadcast fan-out (modelled as emitted event lists) and `spider_api_key`
never touches the store. -/
structure TodoState where
  entries : List Entry
  notes : List Note
  next_entry_id : Nat
  next_note_id : Nat
deriving DecidableEq, Repr

/-- `Default for TodoState` (src/todo/src/lib.rs:27): empty collections,
both counters at 1. -/
def initialState : TodoState := ⟨[], [], 1, 1⟩

/-- `WsServerMessage` (src/todo/src/lib.rs:142), the outbound events. -/
inductive WsServerMessage
  | snapshot (entries : List Entry) (notes : List Note)
  | entryUpdated (entry : Entry)
  | entryRemoved (entry_id : Nat)
  | noteUpdated (note : Note)
  | noteRemoved (note_id : Nat)
deriving DecidableEq, Repr

/-! ## Timescale classifier -/

/-- `compute_timescale` (src/todo/src/lib.rs:731).  `ld` is the chrono
local-date conversion of a millisecond timestamp (always
`LocalResult::Single` for the `Local` timezone), `t` the local date of
`Local::now()`. -/
def compute_timescale (ld : Int → NDate) (due_ts : Option Int) (t : NDate) : EntryTimescale :=
  match due_ts with
  | none => .someday
  | some ts =>
    let due_date := ld ts
    if toRd due_date < toRd t then .overdue
    else if toRd due_date = toRd t then .today
    else
      let weekday := isoWeekdayNumber t
      let end_of_week := toRd t + (7 - weekday)
      if toRd due_date ≤ end_of_week then .thisWeek
      else if toRd due_date ≤ last_day_of_month_rd t.year t.month then .thisMonth
      else .later

/-- `refresh_entry_timescale` (src/todo/src/lib.rs:723). -/
def refresh_entry_timescale (ld : Int → NDate) (t : NDate) (e : Entry) : Entry :=
  { e with timescale := if e.is_completed then .completed else compute_timescale ld e.due_ts t }

/-! ## Link synchronizer -/

/-- One iteration of the `sync_entry_note_links` loop body
(src/todo/src/lib.rs:629): reconcile one note against the desired set,
returning the updated note and its dirty flag. -/
def syncNoteStep (entry_id : Nat) (desired : List Nat) (n : Note) : Note × Bool :=
  if n.id ∈ desired then
    if entry_id ∈ n.linked_entry_ids then (n, false)
    else ({ n with linked_entry_ids := n.linked_entry_ids ++ [entry_id] }, true)
  else
    let after := n.linked_entry_ids.filter (fun id => id != entry_id)
    ({ n with linked_entry_ids := after },
     decide (after.length ≠ n.linked_entry_ids.length))

/-- `sync_entry_note_links` (src/todo/src/lib.rs:626): reconcile every
note against the desired note-id set of entry `entry_id`; returns the new
note list and the touched notes in scan order. -/
def sync_entry_note_links (notes : List Note) (entry_id : Nat) (note_ids : List Nat) :
    List Note × List Note :=
  match notes with
  | [] => ([], [])
  | n :: rest =>
    let p := syncNoteStep entry_id note_ids n
    let r := sync_entry_note_links rest entry_id note_ids
    (p.1 :: r.1, if p.2 then p.1 :: r.2 else r.2)

/-- One iteration of the `sync_note_entry_links` loop body
(src/todo/src/lib.rs:653). -/
def syncEntryStep (note_id : Nat) (desired : List Nat) (e : Entry) : Entry × Bool :=
  if e.id ∈ desired then
    if note_id ∈ e.note_ids then (e, false)
    else ({ e with note_ids := e.note_ids ++ [note_id] }, true)
  else
    let after := e.note_ids.filter (fun id => id != note_id)
    ({ e with note_ids := after },
     decide (after.length ≠ e.note_ids.length))

/-- `sync_note_entry_links` (src/todo/src/lib.rs:650): the symmetric scan
over entries. -/
def sync_note_entry_links (entries : List Entry) (note_id : Nat) (entry_ids : List Nat) :
    List Entry × List Entry :=
  match entries with
  | [] => ([], [])
  | e :: rest =>
    let p := syncEntryStep note_id entry_ids e
    let r := sync_note_entry_links rest note_id entry_ids
    (p.1 :: r.1, if p.2 then p.1 :: r.2 else r.2)

/-! ## Commands -/

/-- Replace the first element satisfying `p` (the effect of mutating the
record found by `iter_mut().find(p)`). -/
def replaceFirst (p : α → Bool) (b : α) : List α → List α
  | [] => []
  | a :: as => if p a then b :: as else a :: replaceFirst p b as

/-- `save_entry` (src/todo/src/lib.rs:207).  Returns the post state, the
broadcast events in emission order, and the command result. -/
def save_entry (s : TodoState) (draft : EntryDraft) (ld : Int → NDate) (t : NDate) :
    TodoState × List WsServerMessage × Except Str Entry :=
  if trim draft.title = [] then (s, [], .error ("Entries require a title.".toList))
  else
    let summary := if trim draft.summary = [] then summarize_text draft.description
                   else draft.summary
    match draft.id with
    | some id =>
      match s.entries.find? (fun e => e.id == id) with
      | none => (s, [], .error ("Entry not found".toList))
      | some e0 =>
        let e2 := refresh_entry_timescale ld t
          { e0 with
            title := draft.title
            summary := summary
            description := draft.description
            project := draft.project
            status := draft.status
            priority := draft.priority
            due_ts := draft.due_ts
            start_ts := draft.start_ts
            dependencies := draft.dependencies
            note_ids := draft.note_ids
            assignees := draft.assignees }
        let sync := sync_entry_note_links s.notes e2.id e2.note_ids
        (⟨replaceFirst (fun e => e.id == id) e2 s.entries, sync.1,
           s.next_entry_id, s.next_note_id⟩,
         sync.2.map WsServerMessage.noteUpdated ++ [WsServerMessage.entryUpdated e2],
         .ok e2)
    | none =>
      let e2 := refresh_entry_timescale ld t
        { id := s.next_entry_id
          title := draft.title
          summary := summary
          description := draft.description
          project := draft.project
          status := draft.status
          timescale := .someday
          priority := draft.priority
          due_ts := draft.due_ts
          start_ts := draft.start_ts
          dependencies := draft.dependencies
          note_ids := draft.note_ids
          assignees := draft.assignees
          is_completed := false
          completed_at_ts := none }
      let sync := sync_entry_note_links s.notes e2.id e2.note_ids
      (⟨s.entries ++ [e2], sync.1, s.next_entry_id + 1, s.next_note_id⟩,
       sync.2.map WsServerMessage.noteUpdated ++ [WsServerMessage.entryUpdated e2],
       .ok e2)

/-- `toggle_entry_completion` (src/todo/src/lib.rs:271). -/
def toggle_entry_completion (s : TodoState) (entry_id : Nat) (completed : Bool)
    (ld : Int → NDate) (t : NDate) (now : Int) :
    TodoState × List WsServerMessage × Except Str Entry :=
  match s.entries.find? (fun e => e.id == entry_id) with
  | none => (s, [], .error ("Entry not found".toList))
  | some e0 =>
    let e1 := if completed then
        { e0 with is_completed := true, status := .done, completed_at_ts := some now }
      else
        { e0 with is_completed := false, completed_at_ts := none }
    let e2 := refresh_entry_timescale ld t e1
    ({ s with entries := replaceFirst (fun e => e.id == entry_id) e2 s.entries },
     [WsServerMessage.entryUpdated e2], .ok e2)

/-- `delete_entry` (src/todo/src/lib.rs:300): remove the entry, cascade
the link removal with an empty desired set, broadcast `EntryRemoved`
first and the touched notes after it. -/
def delete_entry (s : TodoState) (entry_id : Nat) :
    TodoState × List WsServerMessage × Except Str Bool :=
  match s.entries.find? (fun e => e.id == entry_id) with
  | none => (s, [], .error ("Entry not found".toList))
  | some _ =>
    let entries := s.entries.eraseP (fun e => e.id == entry_id)
    let sync := sync_entry_note_links s.notes entry_id []
    ({ s with entries := entries, notes := sync.1 },
     WsServerMessage.entryRemoved entry_id :: sync.2.map WsServerMessage.noteUpdated,
     .ok true)

/-- `save_note` (src/todo/src/lib.rs:316). -/
def save_note (s : TodoState) (draft : NoteDraft) (now : Int) :
    TodoState × List WsServerMessage × Except Str Note :=
  if trim draft.title = [] then (s, [], .error ("Notes require a title.".toList))
  else
    let accent := draft.accent.getD (random_accent_for draft.tags)
    match draft.id with
    | some id =>
      match s.notes.find? (fun n => n.id == id) with
      | none => (s, [], .error ("Note not found".toList))
      | some n0 =>
        let n2 : Note :=
          { n0 with
            title := draft.title
            content := draft.content
            pinned := draft.pinned
            tags := draft.tags
            linked_entry_ids := draft.linked_entry_ids
            summary := summarize_text draft.content
            last_edited_ts := now
            accent := accent }
        let sync := sync_note_entry_links s.entries n2.id n2.linked_entry_ids
        (⟨sync.1, replaceFirst (fun n => n.id == id) n2 s.notes,
           s.next_entry_id, s.next_note_id⟩,
         sync.2.map WsServerMessage.entryUpdated ++ [WsServerMessage.noteUpdated n2],
         .ok n2)
    | none =>
      let n2 : Note :=
        { id := s.next_note_id
          title := draft.title
          content := draft.content
          pinned := draft.pinned
          tags := draft.tags
          linked_entry_ids := draft.linked_entry_ids
          summary := summarize_text draft.content
          accent := accent
          last_edited_ts := now }
      let sync := sync_note_entry_links s.entries n2.id n2.linked_entry_ids
      (⟨sync.1, s.notes ++ [n2], s.next_entry_id, s.next_note_id + 1⟩,
       sync.2.map WsServerMessage.entryUpdated ++ [WsServerMessage.noteUpdated n2],
       .ok n2)

/-- `delete_note` (src/todo/src/lib.rs:368): remove the note, cascade the
link removal, broadcast `NoteRemoved` first and the touched entries after
it. -/
def delete_note (s : TodoState) (note_id : Nat) :
    TodoState × List WsServerMessage × Except Str Bool :=
  match s.notes.find? (fun n => n.id == note_id) with
  | none => (s, [], .error ("Note not found".toList))
  | some _ =>
    let notes := s.notes.eraseP (fun n => n.id == note_id)
    let sync := sync_note_entry_links s.entries note_id []
    ({ s with notes := notes, entries := sync.1 },
     WsServerMessage.noteRemoved note_id :: sync.2.map WsServerMessage.entryUpdated,
     .ok true)

/-- `search_all` (src/todo/src/lib.rs:384). -/
def search_all (s : TodoState) (query : Option Str) : List Entry × List Note :=
  let query := query.getD []
  let query_lower := lowerStr query
  let match_all := query.isEmpty || query == "*".toList
  let matching_entries := s.entries.filter (fun entry =>
    if entry.status = EntryStatus.archived then false
    else if match_all then true
    else
      containsSub (lowerStr entry.title) query_lower
        || containsSub (lowerStr entry.summary) query_lower
        || containsSub (lowerStr entry.description) query_lower
        || (entry.project.map (fun p => containsSub (lowerStr p) query_lower)).getD false
        || entry.assignees.any (fun a => containsSub (lowerStr a) query_lower))
  let matching_notes := s.notes.filter (fun note =>
    if match_all then true
    else
      containsSub (lowerStr note.title) query_lower
        || containsSub (lowerStr note.content) query_lower
        || containsSub (lowerStr note.summary) query_lower
        || note.tags.any (fun tg => containsSub (lowerStr tg) query_lower))
  (matching_entries, matching_notes)

/-! ## Command sequences (reachable states) -/

/-- One inbound mutating command, together with the environment values
(`ld`, `today`, `now`) the host supplies at the moment it is processed. -/
inductive Cmd
  | saveEntry (draft : EntryDraft) (ld : Int → NDate) (t : NDate)
  | toggleEntryCompletion (entry_id : Nat) (completed : Bool)
      (ld : Int → NDate) (t : NDate) (now : Int)
  | deleteEntry (entry_id : Nat)
  | saveNote (draft : NoteDraft) (now : Int)
  | deleteNote (note_id : Nat)

/-- Apply one command: the post state and the events it broadcast. -/
def applyCmd (s : TodoState) : Cmd → TodoState × List WsServerMessage
  | .saveEntry d ld t => ((save_entry s d ld t).1, (save_entry s d ld t).2.1)
  | .toggleEntryCompletion i c ld t now =>
      ((toggle_entry_completion s i c ld t now).1, (toggle_entry_completion s i c ld t now).2.1)
  | .deleteEntry i => ((delete_entry s i).1, (delete_entry s i).2.1)
  | .saveNote d now => ((save_note s d now).1, (save_note s d now).2.1)
  | .deleteNote i => ((delete_note s i).1, (delete_note s i).2.1)

/-- Run a command sequence from a state. -/
def execFrom (s : TodoState) : List Cmd → TodoState
  | [] => s
  | c :: cs => execFrom (applyCmd s c).1 cs

/-- Run a command sequence from the default empty state. -/
def execList (cmds : List Cmd) : TodoState := execFrom initialState cmds

/-! ## Spec-side definitions (phrased from the claims, for comparison) -/

/-- The timescale classification as the spec states it: the ordered rules
of §4.3, with `endOfMonth` the last calendar day of today's month. -/
def classifyClaim (isCompleted : Bool) (dueDate : Option NDate) (t : NDate) : EntryTimescale :=
  if isCompleted then .completed
  else
    match dueDate with
    | none => .someday
    | some d =>
      if toRd d < toRd t then .overdue
      else if toRd d = toRd t then .today
      else if toRd d ≤ toRd t + (7 - isoWeekdayNumber t) then .thisWeek
      else if toRd d ≤ toRd ⟨t.year, t.month, daysInMonth t.year t.month⟩ then .thisMonth
      else .later

/-- The entry-side match predicate as the claim states it: title, summary,
description, project, or some assignee contains the query
case-insensitively. -/
def entryMatchesClaim (q : Str) (e : Entry) : Prop :=
  containsCI e.title q = true ∨ containsCI e.summary q = true
    ∨ containsCI e.description q = true
    ∨ (∃ p, e.project = some p ∧ containsCI p q = true)
    ∨ (∃ a ∈ e.assignees, containsCI a q = true)

/-- The note-side match predicate as the claim states it: title, content,
summary, or some tag contains the query case-insensitively. -/
def noteMatchesClaim (q : Str) (n : Note) : Prop :=
  containsCI n.title q = true ∨ containsCI n.content q = true
    ∨ containsCI n.summary q = true
    ∨ (∃ tg ∈ n.tags, containsCI tg q = true)

/-- An empty or wildcard query. -/
def matchAllClaim (q : Str) : Prop := q = [] ∨ q = "*".toList

/-- The relational invariant of §3: for every stored entry `E` and stored
note `N`, `N.id ∈ E.note_ids ⇔ E.id ∈ N.linked_entry_ids`. -/
def LinkInv (s : TodoState) : Prop :=
  ∀ e ∈ s.entries, ∀ n ∈ s.notes, (n.id ∈ e.note_ids ↔ e.id ∈ n.linked_entry_ids)

/-- Stored entry ids are distinct and below the counter. -/
def EntriesOk (s : TodoState) : Prop :=
  (s.entries.map Entry.id).Nodup ∧ ∀ e ∈ s.entries, e.id < s.next_entry_id

/-- Stored note ids are distinct and below the counter. -/
def NotesOk (s : TodoState) : Prop :=
  (s.notes.map Note.id).Nodup ∧ ∀ n ∈ s.notes, n.id < s.next_note_id

/-- The inductive store invariant: well-formed ids plus the relational
invariant. -/
def StoreInv (s : TodoState) : Prop := EntriesOk s ∧ NotesOk s ∧ LinkInv s

/-- The ids handed out by successful entry creations (a `save_entry` whose
draft carries no id), in command order. -/
def createdEntryIds (s : TodoState) : List Cmd → List Nat
  | [] => []
  | c :: cs =>
    let rest := createdEntryIds (applyCmd s c).1 cs
    match c with
    | .saveEntry d ld t =>
      if d.id = none then
        match (save_entry s d ld t).2.2 with
        | .ok e => e.id :: rest
        | .error _ => rest
      else rest
    | _ => rest

/-- The ids handed out by successful note creations, in command order. -/
def createdNoteIds (s : TodoState) : List Cmd → List Nat
  | [] => []
  | c :: cs =>
    let rest := createdNoteIds (applyCmd s c).1 cs
    match c with
    | .saveNote d now =>
      if d.id = none then
        match (save_note s d now).2.2 with
        | .ok n => n.id :: rest
        | .error _ => rest
      else rest
    | _ => rest

/-! ## Concrete sample inputs (used by witnesses and counterexamples) -/

/-- A fixed local-date conversion for concrete runs. -/
def ldW : Int → NDate := fun _ => ⟨2024, 6, 16⟩

/-- A fixed `today`: 2024-06-10, a Monday. -/
def dateW : NDate := ⟨2024, 6, 10⟩

/-- A sample stored entry with id 1. -/
def entryW : Entry :=
  { id := 1, title := "Task".toList, summary := "S".toList, description := "D".toList,
    project := none, status := .backlog, timescale := .someday, priority := .medium,
    due_ts := some 0, start_ts := none, dependencies := [], note_ids := [],
    assignees := [], is_completed := false, completed_at_ts := none }

/-- A sample stored note with id 1, linked to entry 1. -/
def noteW : Note :=
  { id := 1, title := "Note".toList, content := "C".toList, pinned := false, tags := [],
    linked_entry_ids := [1], summary := "C".toList, accent := "#e0f2fe".toList,
    last_edited_ts := 0 }

/-- Entry 1 linked to note 1. -/
def entryLinkedW : Entry := { entryW with note_ids := [1] }

/-- A store holding the linked pair (entry 1, note 1). -/
def stateW : TodoState :=
  { entries := [entryLinkedW], notes := [noteW], next_entry_id := 2, next_note_id := 2 }

/-- An entry draft whose title is whitespace only. -/
def draftBlankTitleW : EntryDraft :=
  { id := none, title := "   ".toList, summary := [], description := [], project := none,
    status := .backlog, priority := .low, due_ts := none, start_ts := none,
    dependencies := [], note_ids := [], assignees := [] }

/-- An entry draft creating a fresh entry that references the nonexistent
note 42. -/
def draftDanglingW : EntryDraft :=
  { id := none, title := "A".toList, summary := "s".toList, description := [],
    project := none, status := .backlog, priority := .low, due_ts := none,
    start_ts := none, dependencies := [], note_ids := [42], assignees := [] }

/-- An entry draft updating entry 1 with no linked notes. -/
def draftUpdateW : EntryDraft :=
  { draftDanglingW with id := some 1, note_ids := [], title := "B".toList }

/-- A note draft creating a fresh note linked to entry 1. -/
def noteDraftW : NoteDraft :=
  { id := none, title := "N".toList, content := "c".toList, pinned := false, tags := [],
    linked_entry_ids := [1], accent := none }

/-- Entry 1 after the `draftUpdateW` update. -/
def entryBW : Entry :=
  { entryW with
    title := "B".toList
    summary := "s".toList
    description := []
    priority := .low
    due_ts := none }

/-- Note 1 with its entry link removed. -/
def noteUnlinkedW : Note := { noteW with linked_entry_ids := [] }

/-- The note created from `noteDraftW` at counter 2 and time 5. -/
def newNoteW : Note :=
  { id := 2, title := "N".toList, content := "c".toList, pinned := false, tags := [],
    linked_entry_ids := [1], summary := "c".toList, accent := "#e0f2fe".toList,
    last_edited_ts := 5 }

/-- Entry 1 linked to notes 1 and 2. -/
def entryW12 : Entry := { entryW with note_ids := [1, 2] }

/-- The entry produced by `toggle_entry_completion` from the found entry
`e0` (src/todo/src/lib.rs:282): set the flag, set status/`completed_at_ts`
when completing, clear `completed_at_ts` when un-completing, then refresh
the timescale. -/
def toggledEntry (completed : Bool) (now : Int) (ld : Int → NDate) (t : NDate)
    (e0 : Entry) : Entry :=
  refresh_entry_timescale ld t
    (if completed then
       { e0 with is_completed := true, status := .done, completed_at_ts := some now }
     else
       { e0 with is_completed := false, completed_at_ts := none })

/-! # Theorems -/

set_option maxHeartbeats 1000000 in
/-- The code's `last_day_of_month` (first day of the next month, stepped
back one day) is the last calendar day of the month. -/
theorem last_day_of_month_rd_eq (y m : Nat) (hy : 1 ≤ y) (hm1 : 1 ≤ m) (hm2 : m ≤ 12) :
    last_day_of_month_rd y m = toRd ⟨y, m, daysInMonth y m⟩ := by
  interval_cases m <;>
    cases h : isLeap y <;>
      simp only [isLeap, decide_eq_true_eq, decide_eq_false_iff_not] at h <;>
        simp [last_day_of_month_rd, toRd, daysBeforeMonth, daysInMonth, leapCount,
          isLeap, h] <;>
          omega

/-- Claim C3: the timescale classification of an entry equals the result
of the ordered rules of the spec — Completed when `is_completed`, Someday
without a due date, then Overdue / Today / ThisWeek (up to the upcoming
Sunday) / ThisMonth (up to the last calendar day of today's month) /
Later, over the local calendar dates of the due timestamp and now. -/
theorem C3_timescale_rules (ld : Int → NDate) (t : NDate) (e : Entry) (h : ValidDate t) :
    (refresh_entry_timescale ld t e).timescale
      = classifyClaim e.is_completed (e.due_ts.map ld) t := by
  obtain ⟨hm1, hm2, hy⟩ := h
  cases hc : e.is_completed
  · cases hd : e.due_ts with
    | none => simp [refresh_entry_timescale, compute_timescale, classifyClaim, hc, hd]
    | some ts =>
      simp only [refresh_entry_timescale, compute_timescale, classifyClaim, hc, hd,
        Option.map_some', Bool.false_eq_true, if_false]
      rw [last_day_of_month_rd_eq t.year t.month hy hm1 hm2]
  · simp [refresh_entry_timescale, classifyClaim, hc]

/-- Witness for C3 at a concrete input: today 2024-06-10, due date
2024-06-16 (the upcoming Sunday). -/
theorem C3_timescale_rules_witness :
    ValidDate dateW ∧
      (refresh_entry_timescale ldW dateW entryW).timescale
        = classifyClaim entryW.is_completed (entryW.due_ts.map ldW) dateW :=
  ⟨by decide, C3_timescale_rules ldW dateW entryW (by decide)⟩

/-! ## Helper lemmas: the synchronizer scan -/

/-- One sync step never changes the note's id. -/
theorem syncNoteStep_id (eid : Nat) (ids : List Nat) (n : Note) :
    ((syncNoteStep eid ids n).1).id = n.id := by
  unfold syncNoteStep
  split
  · split <;> simp
  · simp

/-- After one sync step, the note references the entry exactly when the
desired set lists the note. -/
theorem syncNoteStep_mem_eid (eid : Nat) (ids : List Nat) (n : Note) :
    eid ∈ ((syncNoteStep eid ids n).1).linked_entry_ids ↔ n.id ∈ ids := by
  unfold syncNoteStep
  by_cases hmem : n.id ∈ ids
  · by_cases hl : eid ∈ n.linked_entry_ids <;> simp [hmem, hl]
  · simp [hmem, List.mem_filter]

/-- One sync step touches no reference other than the synced entry id. -/
theorem syncNoteStep_mem_other (eid : Nat) (ids : List Nat) (n : Note) (x : Nat)
    (hx : x ≠ eid) :
    (x ∈ ((syncNoteStep eid ids n).1).linked_entry_ids ↔ x ∈ n.linked_entry_ids) := by
  unfold syncNoteStep
  by_cases hmem : n.id ∈ ids
  · by_cases hl : eid ∈ n.linked_entry_ids <;> simp [hmem, hl, hx]
  · simp [hmem, List.mem_filter, hx]

/-- A second sync step on an already-reconciled note reports no change. -/
theorem syncNoteStep_idem (eid : Nat) (ids : List Nat) (n : Note) :
    (syncNoteStep eid ids (syncNoteStep eid ids n).1).2 = false := by
  by_cases hmem : n.id ∈ ids
  · by_cases hl : eid ∈ n.linked_entry_ids
    · simp [syncNoteStep, hmem, hl]
    · simp [syncNoteStep, hmem, hl]
  · simp [syncNoteStep, hmem, List.filter_filter]

/-- The synchronized note list is the pointwise sync step. -/
theorem sync_entry_note_links_fst (notes : List Note) (eid : Nat) (ids : List Nat) :
    (sync_entry_note_links notes eid ids).1
      = notes.map (fun n => (syncNoteStep eid ids n).1) := by
  induction notes with
  | nil => rfl
  | cons n rest ih => simp [sync_entry_note_links, ih]

/-- A scan in which no step reports a change returns an empty touched set. -/
theorem sync_entry_note_links_snd_nil (notes : List Note) (eid : Nat) (ids : List Nat)
    (h : ∀ n ∈ notes, (syncNoteStep eid ids n).2 = false) :
    (sync_entry_note_links notes eid ids).2 = [] := by
  induction notes with
  | nil => rfl
  | cons n rest ih =>
    have hn := h n (List.mem_cons_self n rest)
    simp [sync_entry_note_links, hn, ih (fun x hx => h x (List.mem_cons_of_mem n hx))]

/-- One sync step never changes the entry's id. -/
theorem syncEntryStep_id (nid : Nat) (ids : List Nat) (e : Entry) :
    ((syncEntryStep nid ids e).1).id = e.id := by
  unfold syncEntryStep
  split
  · split <;> simp
  · simp

/-- After one sync step, the entry references the note exactly when the
desired set lists the entry. -/
theorem syncEntryStep_mem_nid (nid : Nat) (ids : List Nat) (e : Entry) :
    nid ∈ ((syncEntryStep nid ids e).1).note_ids ↔ e.id ∈ ids := by
  unfold syncEntryStep
  by_cases hmem : e.id ∈ ids
  · by_cases hl : nid ∈ e.note_ids <;> simp [hmem, hl]
  · simp [hmem, List.mem_filter]

/-- One sync step touches no reference other than the synced note id. -/
theorem syncEntryStep_mem_other (nid : Nat) (ids : List Nat) (e : Entry) (x : Nat)
    (hx : x ≠ nid) :
    (x ∈ ((syncEntryStep nid ids e).1).note_ids ↔ x ∈ e.note_ids) := by
  unfold syncEntryStep
  by_cases hmem : e.id ∈ ids
  · by_cases hl : nid ∈ e.note_ids <;> simp [hmem, hl, hx]
  · simp [hmem, List.mem_filter, hx]

/-- A second sync step on an already-reconciled entry reports no change. -/
theorem syncEntryStep_idem (nid : Nat) (ids : List Nat) (e : Entry) :
    (syncEntryStep nid ids (syncEntryStep nid ids e).1).2 = false := by
  by_cases hmem : e.id ∈ ids
  · by_cases hl : nid ∈ e.note_ids
    · simp [syncEntryStep, hmem, hl]
    · simp [syncEntryStep, hmem, hl]
  · simp [syncEntryStep, hmem, List.filter_filter]

/-- The synchronized entry list is the pointwise sync step. -/
theorem sync_note_entry_links_fst (entries : List Entry) (nid : Nat) (ids : List Nat) :
    (sync_note_entry_links entries nid ids).1
      = entries.map (fun e => (syncEntryStep nid ids e).1) := by
  induction entries with
  | nil => rfl
  | cons e rest ih => simp [sync_note_entry_links, ih]

/-- A scan in which no step reports a change returns an empty touched set. -/
theorem sync_note_entry_links_snd_nil (entries : List Entry) (nid : Nat) (ids : List Nat)
    (h : ∀ e ∈ entries, (syncEntryStep nid ids e).2 = false) :
    (sync_note_entry_links entries nid ids).2 = [] := by
  induction entries with
  | nil => rfl
  | cons e rest ih =>
    have he := h e (List.mem_cons_self e rest)
    simp [sync_note_entry_links, he, ih (fun x hx => h x (List.mem_cons_of_mem e hx))]

/-- Claim C5: link synchronization is idempotent — re-running
`sync_entry_note_links` (resp. `sync_note_entry_links`) with the same
desired set over the already-synchronized store returns an empty
touched set. -/
theorem C5_sync_idempotent :
    (∀ (notes : List Note) (eid : Nat) (ids : List Nat),
        (sync_entry_note_links (sync_entry_note_links notes eid ids).1 eid ids).2 = []) ∧
    (∀ (entries : List Entry) (nid : Nat) (ids : List Nat),
        (sync_note_entry_links (sync_note_entry_links entries nid ids).1 nid ids).2 = []) := by
  constructor
  · intro notes eid ids
    apply sync_entry_note_links_snd_nil
    rw [sync_entry_note_links_fst]
    intro n hn
    rcases List.mem_map.mp hn with ⟨m, _, rfl⟩
    exact syncNoteStep_idem eid ids m
  · intro entries nid ids
    apply sync_note_entry_links_snd_nil
    rw [sync_note_entry_links_fst]
    intro e he
    rcases List.mem_map.mp he with ⟨f, _, rfl⟩
    exact syncEntryStep_idem nid ids f

/-- Claim C6: errors are atomic — whenever any of the five mutating
commands returns an error (empty trimmed title, or no record with the
given id), the entire store (both collections and both id counters) is
unchanged. -/
theorem C6_errors_atomic :
    (∀ s d ld t s' m err, save_entry s d ld t = (s', m, Except.error err) → s' = s) ∧
    (∀ s d now s' m err, save_note s d now = (s', m, Except.error err) → s' = s) ∧
    (∀ s i c ld t now s' m err,
        toggle_entry_completion s i c ld t now = (s', m, Except.error err) → s' = s) ∧
    (∀ s i s' m err, delete_entry s i = (s', m, Except.error err) → s' = s) ∧
    (∀ s i s' m err, delete_note s i = (s', m, Except.error err) → s' = s) := by
  refine ⟨?_, ?_, ?_, ?_, ?_⟩
  · intro s d ld t s' m err h
    simp only [save_entry] at h
    split at h
    · simp only [Prod.mk.injEq] at h
      exact h.1.symm
    · split at h
      · split at h
        · simp only [Prod.mk.injEq] at h
          exact h.1.symm
        · simp at h
      · simp at h
  · intro s d now s' m err h
    simp only [save_note] at h
    split at h
    · simp only [Prod.mk.injEq] at h
      exact h.1.symm
    · split at h
      · split at h
        · simp only [Prod.mk.injEq] at h
          exact h.1.symm
        · simp at h
      · simp at h
  · intro s i c ld t now s' m err h
    simp only [toggle_entry_completion] at h
    split at h
    · simp only [Prod.mk.injEq] at h
      exact h.1.symm
    · simp at h
  · intro s i s' m err h
    simp only [delete_entry] at h
    split at h
    · simp only [Prod.mk.injEq] at h
      exact h.1.symm
    · simp at h
  · intro s i s' m err h
    simp only [delete_note] at h
    split at h
    · simp only [Prod.mk.injEq] at h
      exact h.1.symm
    · simp at h

/-- Witness for C6: `save_entry` with a whitespace-only title fails with
the validation error and leaves the default store untouched. -/
theorem C6_errors_atomic_witness :
    save_entry initialState draftBlankTitleW ldW dateW
        = (initialState, [], Except.error ("Entries require a title.".toList)) ∧
      initialState = initialState :=
  ⟨by rfl,
   C6_errors_atomic.1 initialState draftBlankTitleW ldW dateW initialState []
     ("Entries require a title.".toList) (by rfl)⟩

/-- Counterexample to claim C2 as stated: saving a fresh entry whose
draft references the nonexistent note 42 stores the entry still carrying
42 in `note_ids` while no note with id 42 exists — the dangling reference
in the saved record itself is preserved, not dropped. -/
theorem C2_counterexample :
    (save_entry initialState draftDanglingW ldW dateW).1.entries.map Entry.note_ids
        = [[42]] ∧
      (save_entry initialState draftDanglingW ldW dateW).1.notes = [] := by
  constructor <;> rfl

/-- Claim C2 amended: the deletion cascade drops every opposite-side
reference to the deleted entity — after `delete_entry` returns no stored
note references the deleted entry, and after `delete_note` no stored
entry references the deleted note.  (The saved record's own dangling
draft references are preserved by `save_entry` / `save_note`, per the
counterexample.) -/
theorem C2_amended_cascade_drops_refs :
    (∀ s eid s' m r, delete_entry s eid = (s', m, Except.ok r) →
        ∀ n ∈ s'.notes, eid ∉ n.linked_entry_ids) ∧
    (∀ s nid s' m r, delete_note s nid = (s', m, Except.ok r) →
        ∀ e ∈ s'.entries, nid ∉ e.note_ids) := by
  constructor
  · intro s eid s' m r h n hn
    simp only [delete_entry] at h
    split at h
    · simp at h
    · simp only [Prod.mk.injEq] at h
      obtain ⟨h1, -, -⟩ := h
      have hnotes : s'.notes = (sync_entry_note_links s.notes eid []).1 := by
        rw [← h1]
      rw [hnotes, sync_entry_note_links_fst] at hn
      rcases List.mem_map.mp hn with ⟨m0, -, rfl⟩
      intro hmem
      have hin := (syncNoteStep_mem_eid eid [] m0).mp hmem
      simp at hin
  · intro s nid s' m r h e he
    simp only [delete_note] at h
    split at h
    · simp at h
    · simp only [Prod.mk.injEq] at h
      obtain ⟨h1, -, -⟩ := h
      have hentries : s'.entries = (sync_note_entry_links s.entries nid []).1 := by
        rw [← h1]
      rw [hentries, sync_note_entry_links_fst] at he
      rcases List.mem_map.mp he with ⟨e0, -, rfl⟩
      intro hmem
      have hin := (syncEntryStep_mem_nid nid [] e0).mp hmem
      simp at hin

/-- Witness for the amended C2: deleting entry 1 from the linked pair
store leaves note 1 without any reference to entry 1. -/
theorem C2_amended_cascade_drops_refs_witness :
    delete_entry stateW 1
        = ({ entries := [], notes := [noteUnlinkedW], next_entry_id := 2, next_note_id := 2 },
           [WsServerMessage.entryRemoved 1, WsServerMessage.noteUpdated noteUnlinkedW],
           Except.ok true) ∧
      ∀ n ∈ ({ entries := [], notes := [noteUnlinkedW], next_entry_id := 2,
               next_note_id := 2 } : TodoState).notes,
        1 ∉ n.linked_entry_ids :=
  ⟨by rfl,
   C2_amended_cascade_drops_refs.1 stateW 1
     { entries := [], notes := [noteUnlinkedW], next_entry_id := 2, next_note_id := 2 }
     [WsServerMessage.entryRemoved 1, WsServerMessage.noteUpdated noteUnlinkedW]
     true (by rfl)⟩

/-- Counterexample to claim C4 as stated: deleting entry 1 from the
linked pair store emits the primary `EntryRemoved` event before the
touched linked note's update — deletions do not put linked-record
updates first. -/
theorem C4_counterexample :
    (delete_entry stateW 1).2.1
        = [WsServerMessage.entryRemoved 1, WsServerMessage.noteUpdated noteUnlinkedW] ∧
      (delete_entry stateW 1).2.2 = Except.ok true := by
  constructor <;> rfl

/-- Claim C4 amended: for `save_entry` and `save_note` the touched
linked-record updates are emitted before the primary record's update, but
for `delete_entry` and `delete_note` the primary removal event is emitted
first, followed by the touched linked-record updates. -/
theorem C4_amended_event_order :
    (∀ s d ld t s' m e, save_entry s d ld t = (s', m, Except.ok e) →
        ∃ touched : List Note, m = touched.map WsServerMessage.noteUpdated
            ++ [WsServerMessage.entryUpdated e]) ∧
    (∀ s d now s' m n, save_note s d now = (s', m, Except.ok n) →
        ∃ touched : List Entry, m = touched.map WsServerMessage.entryUpdated
            ++ [WsServerMessage.noteUpdated n]) ∧
    (∀ s i s' m r, delete_entry s i = (s', m, Except.ok r) →
        ∃ touched : List Note, m = WsServerMessage.entryRemoved i
            :: touched.map WsServerMessage.noteUpdated) ∧
    (∀ s i s' m r, delete_note s i = (s', m, Except.ok r) →
        ∃ touched : List Entry, m = WsServerMessage.noteRemoved i
            :: touched.map WsServerMessage.entryUpdated) := by
  refine ⟨?_, ?_, ?_, ?_⟩
  · intro s d ld t s' m e h
    simp only [save_entry] at h
    split at h
    · simp at h
    · split at h
      · split at h
        · simp at h
        · simp only [Prod.mk.injEq, Except.ok.injEq] at h
          obtain ⟨-, h2, h3⟩ := h
          subst h3
          exact ⟨_, h2.symm⟩
      · simp only [Prod.mk.injEq, Except.ok.injEq] at h
        obtain ⟨-, h2, h3⟩ := h
        subst h3
        exact ⟨_, h2.symm⟩
  · intro s d now s' m n h
    simp only [save_note] at h
    split at h
    · simp at h
    · split at h
      · split at h
        · simp at h
        · simp only [Prod.mk.injEq, Except.ok.injEq] at h
          obtain ⟨-, h2, h3⟩ := h
          subst h3
          exact ⟨_, h2.symm⟩
      · simp only [Prod.mk.injEq, Except.ok.injEq] at h
        obtain ⟨-, h2, h3⟩ := h
        subst h3
        exact ⟨_, h2.symm⟩
  · intro s i s' m r h
    simp only [delete_entry] at h
    split at h
    · simp at h
    · simp only [Prod.mk.injEq] at h
      obtain ⟨-, h2, -⟩ := h
      exact ⟨_, h2.symm⟩
  · intro s i s' m r h
    simp only [delete_note] at h
    split at h
    · simp at h
    · simp only [Prod.mk.injEq] at h
      obtain ⟨-, h2, -⟩ := h
      exact ⟨_, h2.symm⟩

/-- Witness for the amended C4: the four event shapes at concrete runs on
the linked pair store. -/
theorem C4_amended_event_order_witness :
    (save_entry stateW draftUpdateW ldW dateW
        = ({ entries := [entryBW], notes := [noteUnlinkedW], next_entry_id := 2,
             next_note_id := 2 },
           [WsServerMessage.noteUpdated noteUnlinkedW, WsServerMessage.entryUpdated entryBW],
           Except.ok entryBW) ∧
      ∃ touched : List Note, [WsServerMessage.noteUpdated noteUnlinkedW,
          WsServerMessage.entryUpdated entryBW]
        = touched.map WsServerMessage.noteUpdated ++ [WsServerMessage.entryUpdated entryBW]) ∧
    (save_note stateW noteDraftW 5
        = ({ entries := [entryW12], notes := [noteW, newNoteW], next_entry_id := 2,
             next_note_id := 3 },
           [WsServerMessage.entryUpdated entryW12, WsServerMessage.noteUpdated newNoteW],
           Except.ok newNoteW) ∧
      ∃ touched : List Entry, [WsServerMessage.entryUpdated entryW12,
          WsServerMessage.noteUpdated newNoteW]
        = touched.map WsServerMessage.entryUpdated ++ [WsServerMessage.noteUpdated newNoteW]) ∧
    (delete_entry stateW 1
        = ({ entries := [], notes := [noteUnlinkedW], next_entry_id := 2, next_note_id := 2 },
           [WsServerMessage.entryRemoved 1, WsServerMessage.noteUpdated noteUnlinkedW],
           Except.ok true) ∧
      ∃ touched : List Note, [WsServerMessage.entryRemoved 1, WsServerMessage.noteUpdated noteUnlinkedW]
        = WsServerMessage.entryRemoved 1 :: touched.map WsServerMessage.noteUpdated) ∧
    (delete_note stateW 1
        = ({ entries := [entryW], notes := [], next_entry_id := 2, next_note_id := 2 },
           [WsServerMessage.noteRemoved 1, WsServerMessage.entryUpdated entryW],
           Except.ok true) ∧
      ∃ touched : List Entry, [WsServerMessage.noteRemoved 1, WsServerMessage.entryUpdated entryW]
        = WsServerMessage.noteRemoved 1 :: touched.map WsServerMessage.entryUpdated) :=
  ⟨⟨by rfl, C4_amended_event_order.1 stateW draftUpdateW ldW dateW _ _ entryBW (by rfl)⟩,
   ⟨by rfl, C4_amended_event_order.2.1 stateW noteDraftW 5 _ _ newNoteW (by rfl)⟩,
   ⟨by rfl, C4_amended_event_order.2.2.1 stateW 1 _ _ true (by rfl)⟩,
   ⟨by rfl, C4_amended_event_order.2.2.2 stateW 1 _ _ true (by rfl)⟩⟩

/-! ## Helper lemmas: search and replaceFirst -/

/-- The entry filter of `search_all`, characterized by the claim's
predicate: not archived, and either a match-all query or a field match. -/
theorem search_entry_pred_iff (q : Str) (e : Entry) :
    (if e.status = EntryStatus.archived then false
     else if q.isEmpty || q == "*".toList then true
     else containsSub (lowerStr e.title) (lowerStr q)
       || containsSub (lowerStr e.summary) (lowerStr q)
       || containsSub (lowerStr e.description) (lowerStr q)
       || (e.project.map (fun p => containsSub (lowerStr p) (lowerStr q))).getD false
       || e.assignees.any (fun a => containsSub (lowerStr a) (lowerStr q))) = true
      ↔ e.status ≠ EntryStatus.archived ∧ (matchAllClaim q ∨ entryMatchesClaim q e) := by
  by_cases h1 : e.status = EntryStatus.archived
  · simp [h1]
  · by_cases h2 : (q.isEmpty || q == ("*".toList : Str)) = true
    · have hm : matchAllClaim q := by
        rcases Bool.or_eq_true_iff.mp h2 with h | h
        · exact Or.inl (List.isEmpty_iff.mp h)
        · exact Or.inr (by simpa using h)
      simp only [if_neg h1, if_pos h2, true_iff]
      exact ⟨h1, Or.inl hm⟩
    · have hm : ¬ matchAllClaim q := by
        intro hq
        apply h2
        rcases hq with hq | hq
        · subst hq
          rfl
        · subst hq
          rfl
      rw [if_neg h1, if_neg (by simpa using h2)]
      constructor
      · intro hb
        refine ⟨h1, Or.inr ?_⟩
        simp only [Bool.or_eq_true_iff, List.any_eq_true] at hb
        simp only [entryMatchesClaim, containsCI]
        rcases hb with ((((h | h) | h) | h) | h)
        · exact Or.inl h
        · exact Or.inr (Or.inl h)
        · exact Or.inr (Or.inr (Or.inl h))
        · refine Or.inr (Or.inr (Or.inr (Or.inl ?_)))
          rcases hp : e.project with _ | p
          · rw [hp] at h
            simp at h
          · rw [hp] at h
            simp only [Option.map_some', Option.getD_some] at h
            exact ⟨p, rfl, h⟩
        · exact Or.inr (Or.inr (Or.inr (Or.inr h)))
      · rintro ⟨-, hm2 | hm2⟩
        · exact absurd hm2 hm
        · simp only [entryMatchesClaim, containsCI] at hm2
          simp only [Bool.or_eq_true_iff, List.any_eq_true]
          rcases hm2 with h | h | h | ⟨p, hp, h⟩ | h
          · exact Or.inl (Or.inl (Or.inl (Or.inl h)))
          · exact Or.inl (Or.inl (Or.inl (Or.inr h)))
          · exact Or.inl (Or.inl (Or.inr h))
          · exact Or.inl (Or.inr (by rw [hp]; simpa using h))
          · exact Or.inr h

/-- The note filter of `search_all`, characterized by the claim's
predicate. -/
theorem search_note_pred_iff (q : Str) (n : Note) :
    (if q.isEmpty || q == "*".toList then true
     else containsSub (lowerStr n.title) (lowerStr q)
       || containsSub (lowerStr n.content) (lowerStr q)
       || containsSub (lowerStr n.summary) (lowerStr q)
       || n.tags.any (fun tg => containsSub (lowerStr tg) (lowerStr q))) = true
      ↔ (matchAllClaim q ∨ noteMatchesClaim q n) := by
  by_cases h2 : (q.isEmpty || q == ("*".toList : Str)) = true
  · have hm : matchAllClaim q := by
      rcases Bool.or_eq_true_iff.mp h2 with h | h
      · exact Or.inl (List.isEmpty_iff.mp h)
      · exact Or.inr (by simpa using h)
    simp only [if_pos h2, true_iff]
    exact Or.inl hm
  · have hm : ¬ matchAllClaim q := by
      intro hq
      apply h2
      rcases hq with hq | hq
      · subst hq
        rfl
      · subst hq
        rfl
    rw [if_neg (by simpa using h2)]
    constructor
    · intro hb
      refine Or.inr ?_
      simp only [Bool.or_eq_true_iff, List.any_eq_true] at hb
      simp only [noteMatchesClaim, containsCI]
      tauto
    · rintro (hm2 | hm2)
      · exact absurd hm2 hm
      · simp only [noteMatchesClaim, containsCI] at hm2
        simp only [Bool.or_eq_true_iff, List.any_eq_true]
        tauto

/-- Claim C8: `search_all` returns exactly the non-archived entries whose
title, summary, description, project, or some assignee contains the query
case-insensitively (every entry for an empty or `*` query), and exactly
the notes whose title, content, summary, or some tag contains it;
archived entries are excluded for every query. -/
theorem C8_search_all_exact :
    (∀ (s : TodoState) (q : Option Str) (e : Entry),
        e ∈ (search_all s q).1 ↔
          e ∈ s.entries ∧ e.status ≠ EntryStatus.archived ∧
            (matchAllClaim (q.getD []) ∨ entryMatchesClaim (q.getD []) e)) ∧
    (∀ (s : TodoState) (q : Option Str) (n : Note),
        n ∈ (search_all s q).2 ↔
          n ∈ s.notes ∧ (matchAllClaim (q.getD []) ∨ noteMatchesClaim (q.getD []) n)) := by
  constructor
  · intro s q e
    simp only [search_all, List.mem_filter]
    rw [search_entry_pred_iff]
  · intro s q n
    simp only [search_all, List.mem_filter]
    rw [search_note_pred_iff]

/-- `find?` lands on the replacement after `replaceFirst` with the same
predicate. -/
theorem find?_replaceFirst (p : α → Bool) (b : α) (l : List α) (a : α)
    (hfind : l.find? p = some a) (hb : p b = true) :
    (replaceFirst p b l).find? p = some b := by
  induction l with
  | nil => simp at hfind
  | cons x xs ih =>
    by_cases hx : p x = true
    · simp [replaceFirst, hx, List.find?_cons_of_pos, hb]
    · rw [List.find?_cons_of_neg _ hx] at hfind
      simp only [replaceFirst]
      rw [if_neg hx, List.find?_cons_of_neg _ hx]
      exact ih hfind

/-- Replacing the matching element leaves the non-matching sublist
untouched. -/
theorem filter_not_replaceFirst (p : α → Bool) (b : α) (l : List α) (hb : p b = true) :
    (replaceFirst p b l).filter (fun x => !(p x)) = l.filter (fun x => !(p x)) := by
  induction l with
  | nil => rfl
  | cons x xs ih =>
    by_cases hx : p x = true
    · simp only [replaceFirst]
      rw [if_pos hx]
      simp [hb, hx]
    · simp only [replaceFirst]
      rw [if_neg hx]
      simp only [List.filter_cons]
      rw [ih]

/-- `toggle_entry_completion` on a found entry: the explicit result. -/
theorem toggle_entry_completion_eq (s : TodoState) (entry_id : Nat) (completed : Bool)
    (ld : Int → NDate) (t : NDate) (now : Int) (e0 : Entry)
    (hfind : s.entries.find? (fun e => e.id == entry_id) = some e0) :
    toggle_entry_completion s entry_id completed ld t now
      = (⟨replaceFirst (fun e => e.id == entry_id) (toggledEntry completed now ld t e0)
            s.entries, s.notes, s.next_entry_id, s.next_note_id⟩,
         [WsServerMessage.entryUpdated (toggledEntry completed now ld t e0)],
         Except.ok (toggledEntry completed now ld t e0)) := by
  simp only [toggle_entry_completion, hfind, toggledEntry]

/-- Claim C9: for a stored entry, `toggle_entry_completion` sets
`is_completed` to the flag; completing also sets status `Done` and
`completed_at_ts = now`; un-completing clears `completed_at_ts` and
leaves the status unchanged; the timescale is recomputed (`Completed`
when completing). -/
theorem C9_toggle_completion (s : TodoState) (entry_id : Nat) (completed : Bool)
    (ld : Int → NDate) (t : NDate) (now : Int) (e0 : Entry)
    (hfind : s.entries.find? (fun e => e.id == entry_id) = some e0) :
    ∃ s' msgs e,
      toggle_entry_completion s entry_id completed ld t now = (s', msgs, Except.ok e) ∧
        e.is_completed = completed ∧
        (completed = true → e.status = EntryStatus.done ∧ e.completed_at_ts = some now) ∧
        (completed = false → e.completed_at_ts = none ∧ e.status = e0.status) ∧
        e.timescale = (if completed then EntryTimescale.completed
                       else compute_timescale ld e0.due_ts t) ∧
        s'.entries.find? (fun x => x.id == entry_id) = some e := by
  have hb := List.find?_some hfind
  have hb2 : ((toggledEntry completed now ld t e0).id == entry_id) = true := by
    cases completed <;> simpa [toggledEntry, refresh_entry_timescale] using hb
  have htog := toggle_entry_completion_eq s entry_id completed ld t now e0 hfind
  refine ⟨_, _, _, htog, ?_, ?_, ?_, ?_, ?_⟩
  · cases completed <;> rfl
  · intro hc
    subst hc
    exact ⟨rfl, rfl⟩
  · intro hc
    subst hc
    exact ⟨rfl, rfl⟩
  · cases completed <;> rfl
  · exact find?_replaceFirst _ _ _ _ hfind hb2

/-- Witness for C9: completing entry 1 of the linked pair store at time
7. -/
theorem C9_toggle_completion_witness :
    stateW.entries.find? (fun e => e.id == 1) = some entryLinkedW ∧
      ∃ s' msgs e,
        toggle_entry_completion stateW 1 true ldW dateW 7 = (s', msgs, Except.ok e) ∧
          e.is_completed = true ∧
          (true = true → e.status = EntryStatus.done ∧ e.completed_at_ts = some 7) ∧
          (true = false → e.completed_at_ts = none ∧ e.status = entryLinkedW.status) ∧
          e.timescale = (if true then EntryTimescale.completed
                         else compute_timescale ldW entryLinkedW.due_ts dateW) ∧
          s'.entries.find? (fun x => x.id == 1) = some e :=
  ⟨by rfl, C9_toggle_completion stateW 1 true ldW dateW 7 entryLinkedW (by rfl)⟩

/-- Claim C10: updating an existing entry through `save_entry` leaves the
entry's id, `is_completed`, and `completed_at_ts` unchanged (the draft
carries no completion fields), and leaves every other stored entry
entirely unchanged. -/
theorem C10_update_frame (s : TodoState) (draft : EntryDraft) (ld : Int → NDate) (t : NDate)
    (i : Nat) (e0 : Entry) (s' : TodoState) (m : List WsServerMessage) (e2 : Entry)
    (hid : draft.id = some i)
    (hfind : s.entries.find? (fun e => e.id == i) = some e0)
    (h : save_entry s draft ld t = (s', m, Except.ok e2)) :
    e2.id = e0.id ∧ e2.is_completed = e0.is_completed ∧
      e2.completed_at_ts = e0.completed_at_ts ∧
      s'.entries.filter (fun e => !(e.id == i))
        = s.entries.filter (fun e => !(e.id == i)) := by
  have hb := List.find?_some hfind
  simp only [save_entry, hid, hfind] at h
  split at h
  · simp at h
  · simp only [Prod.mk.injEq, Except.ok.injEq] at h
    obtain ⟨h1, -, h3⟩ := h
    subst h3
    refine ⟨rfl, rfl, rfl, ?_⟩
    rw [← h1]
    exact filter_not_replaceFirst _ _ _ hb

/-- Witness for C10: updating entry 1 of the linked pair store with the
no-links draft. -/
theorem C10_update_frame_witness :
    draftUpdateW.id = some 1 ∧
      stateW.entries.find? (fun e => e.id == 1) = some entryLinkedW ∧
      save_entry stateW draftUpdateW ldW dateW
        = (⟨[entryBW], [noteUnlinkedW], 2, 2⟩,
           [WsServerMessage.noteUpdated noteUnlinkedW, WsServerMessage.entryUpdated entryBW],
           Except.ok entryBW) ∧
      (entryBW.id = entryLinkedW.id ∧ entryBW.is_completed = entryLinkedW.is_completed ∧
        entryBW.completed_at_ts = entryLinkedW.completed_at_ts ∧
        (⟨[entryBW], [noteUnlinkedW], 2, 2⟩ : TodoState).entries.filter
            (fun e => !(e.id == 1))
          = stateW.entries.filter (fun e => !(e.id == 1))) :=
  ⟨rfl, rfl, rfl,
   C10_update_frame stateW draftUpdateW ldW dateW 1 entryLinkedW
     ⟨[entryBW], [noteUnlinkedW], 2, 2⟩
     [WsServerMessage.noteUpdated noteUnlinkedW, WsServerMessage.entryUpdated entryBW]
     entryBW rfl rfl rfl⟩

/-! ## Helper lemmas: replaceFirst / eraseP under distinct keys -/

/-- Membership after `replaceFirst` under distinct keys: the replacement,
or an untouched element whose key differs from the replaced one. -/
theorem mem_replaceFirst_of_nodupKeys {α : Type} (p : α → Bool) (f : α → Nat) (b a x : α)
    (l : List α) (hnd : (l.map f).Nodup) (hfind : l.find? p = some a)
    (hp : ∀ y, p y = true ↔ f y = f a) (hx : x ∈ replaceFirst p b l) :
    x = b ∨ (x ∈ l ∧ f x ≠ f a) := by
  induction l with
  | nil => simp [replaceFirst] at hx
  | cons c cs ih =>
    rw [List.map_cons, List.nodup_cons] at hnd
    by_cases hc : p c = true
    · rw [List.find?_cons_of_pos _ hc] at hfind
      injection hfind with hca
      subst hca
      simp only [replaceFirst] at hx
      rw [if_pos hc] at hx
      rcases List.mem_cons.mp hx with hxb | hxcs
      · exact Or.inl hxb
      · right
        refine ⟨List.mem_cons_of_mem _ hxcs, fun hfx => ?_⟩
        have hin : f x ∈ cs.map f := List.mem_map_of_mem f hxcs
        rw [hfx] at hin
        exact hnd.1 hin
    · rw [List.find?_cons_of_neg _ hc] at hfind
      simp only [replaceFirst] at hx
      rw [if_neg hc] at hx
      rcases List.mem_cons.mp hx with hxc | hxcs
      · subst hxc
        exact Or.inr ⟨List.mem_cons_self _ _, fun hfx => hc ((hp x).mpr hfx)⟩
      · rcases ih hnd.2 hfind hxcs with hxb | ⟨hmem, hne⟩
        · exact Or.inl hxb
        · exact Or.inr ⟨List.mem_cons_of_mem _ hmem, hne⟩

/-- Membership after `eraseP` under distinct keys: an untouched element
whose key differs from the erased one. -/
theorem mem_eraseP_of_nodupKeys {α : Type} (p : α → Bool) (f : α → Nat) (a x : α)
    (l : List α) (hnd : (l.map f).Nodup) (hfind : l.find? p = some a)
    (hp : ∀ y, p y = true ↔ f y = f a) (hx : x ∈ l.eraseP p) :
    x ∈ l ∧ f x ≠ f a := by
  induction l with
  | nil => simp at hx
  | cons c cs ih =>
    rw [List.map_cons, List.nodup_cons] at hnd
    by_cases hc : p c = true
    · rw [List.find?_cons_of_pos _ hc] at hfind
      injection hfind with hca
      subst hca
      rw [List.eraseP_cons_of_pos hc] at hx
      refine ⟨List.mem_cons_of_mem _ hx, fun hfx => ?_⟩
      have hin : f x ∈ cs.map f := List.mem_map_of_mem f hx
      rw [hfx] at hin
      exact hnd.1 hin
    · rw [List.find?_cons_of_neg _ hc] at hfind
      rw [List.eraseP_cons_of_neg hc] at hx
      rcases List.mem_cons.mp hx with hxc | hxcs
      · subst hxc
        exact ⟨List.mem_cons_self _ _, fun hfx => hc ((hp x).mpr hfx)⟩
      · obtain ⟨hmem, hne⟩ := ih hnd.2 hfind hxcs
        exact ⟨List.mem_cons_of_mem _ hmem, hne⟩

/-- `replaceFirst` with a key-preserving replacement preserves the key
list. -/
theorem map_replaceFirst_eq {α : Type} (p : α → Bool) (f : α → Nat) (b : α) (l : List α)
    (hb : ∀ y, p y = true → f y = f b) :
    (replaceFirst p b l).map f = l.map f := by
  induction l with
  | nil => rfl
  | cons c cs ih =>
    by_cases hc : p c = true
    · simp only [replaceFirst]
      rw [if_pos hc, List.map_cons, List.map_cons, hb c hc]
    · simp only [replaceFirst]
      rw [if_neg hc, List.map_cons, List.map_cons, ih]

/-- The note sync preserves the note id list. -/
theorem sync_entry_note_links_map_id (notes : List Note) (eid : Nat) (ids : List Nat) :
    ((sync_entry_note_links notes eid ids).1).map Note.id = notes.map Note.id := by
  induction notes with
  | nil => rfl
  | cons n ns ih => simp [sync_entry_note_links, syncNoteStep_id, ih]

/-- The entry sync preserves the entry id list. -/
theorem sync_note_entry_links_map_id (entries : List Entry) (nid : Nat) (ids : List Nat) :
    ((sync_note_entry_links entries nid ids).1).map Entry.id = entries.map Entry.id := by
  induction entries with
  | nil => rfl
  | cons e es ih => simp [sync_note_entry_links, syncEntryStep_id, ih]

/-- Every note in a synced list keeps the id of a note of the input. -/
theorem mem_sync_notes_id (notes : List Note) (eid : Nat) (ids : List Nat) (n' : Note)
    (hn' : n' ∈ (sync_entry_note_links notes eid ids).1) :
    ∃ n ∈ notes, n'.id = n.id := by
  rw [sync_entry_note_links_fst] at hn'
  rcases List.mem_map.mp hn' with ⟨n, hn, rfl⟩
  exact ⟨n, hn, syncNoteStep_id _ _ _⟩

/-- Every entry in a synced list keeps the id of an entry of the input. -/
theorem mem_sync_entries_id (entries : List Entry) (nid : Nat) (ids : List Nat) (e' : Entry)
    (he' : e' ∈ (sync_note_entry_links entries nid ids).1) :
    ∃ e ∈ entries, e'.id = e.id := by
  rw [sync_note_entry_links_fst] at he'
  rcases List.mem_map.mp he' with ⟨e, he, rfl⟩
  exact ⟨e, he, syncEntryStep_id _ _ _⟩

/-- After a note-side sync against entry `eid` with desired set `ids`,
the relational invariant holds for any entry list in which the entry
`eid` (if present) carries exactly `ids` and every other entry is an
untouched stored entry. -/
theorem linkInv_after_note_sync (s : TodoState) (eid : Nat) (ids : List Nat)
    (entries' : List Entry) (hlink : LinkInv s)
    (hmem : ∀ e' ∈ entries',
      (e'.id = eid ∧ e'.note_ids = ids) ∨ (e' ∈ s.entries ∧ e'.id ≠ eid)) :
    ∀ e' ∈ entries', ∀ n' ∈ (sync_entry_note_links s.notes eid ids).1,
      (n'.id ∈ e'.note_ids ↔ e'.id ∈ n'.linked_entry_ids) := by
  intro e' he' n' hn'
  rw [sync_entry_note_links_fst] at hn'
  rcases List.mem_map.mp hn' with ⟨n, hnmem, rfl⟩
  rcases hmem e' he' with ⟨hid, hids⟩ | ⟨hmem2, hne⟩
  · rw [syncNoteStep_id, hid, hids]
    exact (syncNoteStep_mem_eid eid ids n).symm
  · rw [syncNoteStep_id]
    calc n.id ∈ e'.note_ids
        ↔ e'.id ∈ n.linked_entry_ids := hlink e' hmem2 n hnmem
      _ ↔ e'.id ∈ ((syncNoteStep eid ids n).1).linked_entry_ids :=
          (syncNoteStep_mem_other eid ids n e'.id hne).symm

/-- After an entry-side sync against note `nid` with desired set `ids`,
the relational invariant holds for any note list in which the note `nid`
(if present) carries exactly `ids` and every other note is an untouched
stored note. -/
theorem linkInv_after_entry_sync (s : TodoState) (nid : Nat) (ids : List Nat)
    (notes' : List Note) (hlink : LinkInv s)
    (hmem : ∀ n' ∈ notes',
      (n'.id = nid ∧ n'.linked_entry_ids = ids) ∨ (n' ∈ s.notes ∧ n'.id ≠ nid)) :
    ∀ e' ∈ (sync_note_entry_links s.entries nid ids).1, ∀ n' ∈ notes',
      (n'.id ∈ e'.note_ids ↔ e'.id ∈ n'.linked_entry_ids) := by
  intro e' he' n' hn'
  rw [sync_note_entry_links_fst] at he'
  rcases List.mem_map.mp he' with ⟨e, hemem, rfl⟩
  rcases hmem n' hn' with ⟨hid, hids⟩ | ⟨hmem2, hne⟩
  · rw [syncEntryStep_id, hid, hids]
    exact syncEntryStep_mem_nid nid ids e
  · rw [syncEntryStep_id]
    calc n'.id ∈ ((syncEntryStep nid ids e).1).note_ids
        ↔ n'.id ∈ e.note_ids := syncEntryStep_mem_other nid ids e n'.id hne
      _ ↔ e.id ∈ n'.linked_entry_ids := hlink e hemem n' hmem2

/-- `toggle_entry_completion` preserves the store invariant. -/
theorem storeInv_toggle (s : TodoState) (i : Nat) (c : Bool) (ld : Int → NDate) (t : NDate)
    (now : Int) (h : StoreInv s) : StoreInv (toggle_entry_completion s i c ld t now).1 := by
  obtain ⟨⟨hnde, hbe⟩, hN, hlink⟩ := h
  rcases hfind : s.entries.find? (fun e => e.id == i) with _ | e0
  · simp only [toggle_entry_completion, hfind]
    exact ⟨⟨hnde, hbe⟩, hN, hlink⟩
  · have hi : e0.id = i := by simpa using List.find?_some hfind
    have hpid : ∀ y : Entry, (y.id == i) = true ↔ y.id = e0.id := by
      intro y
      simp [hi]
    have hid2 : (toggledEntry c now ld t e0).id = e0.id := by
      cases c <;> rfl
    have hnids2 : (toggledEntry c now ld t e0).note_ids = e0.note_ids := by
      cases c <;> rfl
    have he0mem : e0 ∈ s.entries := List.mem_of_find?_eq_some hfind
    rw [toggle_entry_completion_eq s i c ld t now e0 hfind]
    refine ⟨⟨?_, ?_⟩, hN, ?_⟩
    · rw [map_replaceFirst_eq]
      · exact hnde
      · intro y hy
        rw [hid2, ((hpid y).mp hy)]
    · intro e' he'
      rcases mem_replaceFirst_of_nodupKeys _ Entry.id _ e0 e' _ hnde hfind hpid he'
        with he2 | ⟨hmem, -⟩
      · subst he2
        rw [hid2]
        exact hbe e0 he0mem
      · exact hbe e' hmem
    · intro e' he' n' hn'
      rcases mem_replaceFirst_of_nodupKeys _ Entry.id _ e0 e' _ hnde hfind hpid he'
        with he2 | ⟨hmem, hne⟩
      · subst he2
        rw [hid2, hnids2]
        exact hlink e0 he0mem n' hn'
      · exact hlink e' hmem n' hn'

/-- `delete_entry` preserves the store invariant. -/
theorem storeInv_delete_entry (s : TodoState) (i : Nat) (h : StoreInv s) :
    StoreInv (delete_entry s i).1 := by
  obtain ⟨⟨hnde, hbe⟩, ⟨hndn, hbn⟩, hlink⟩ := h
  rcases hfind : s.entries.find? (fun e => e.id == i) with _ | e0
  · simp only [delete_entry, hfind]
    exact ⟨⟨hnde, hbe⟩, ⟨hndn, hbn⟩, hlink⟩
  · have hi : e0.id = i := by simpa using List.find?_some hfind
    have hpid : ∀ y : Entry, (y.id == i) = true ↔ y.id = e0.id := by
      intro y
      simp [hi]
    simp only [delete_entry, hfind]
    refine ⟨⟨?_, ?_⟩, ⟨?_, ?_⟩, ?_⟩
    · exact hnde.sublist ((s.entries.eraseP_sublist).map Entry.id)
    · intro e' he'
      exact hbe e' (mem_eraseP_of_nodupKeys _ Entry.id e0 e' _ hnde hfind hpid he').1
    · rw [sync_entry_note_links_map_id]
      exact hndn
    · intro n' hn'
      obtain ⟨n, hn, hid⟩ := mem_sync_notes_id s.notes i [] n' hn'
      rw [hid]
      exact hbn n hn
    · refine linkInv_after_note_sync s i [] _ hlink ?_
      intro e' he'
      right
      obtain ⟨hmem, hne⟩ := mem_eraseP_of_nodupKeys _ Entry.id e0 e' _ hnde hfind hpid he'
      rw [← hi]
      exact ⟨hmem, hne⟩

/-- `delete_note` preserves the store invariant. -/
theorem storeInv_delete_note (s : TodoState) (i : Nat) (h : StoreInv s) :
    StoreInv (delete_note s i).1 := by
  obtain ⟨⟨hnde, hbe⟩, ⟨hndn, hbn⟩, hlink⟩ := h
  rcases hfind : s.notes.find? (fun n => n.id == i) with _ | n0
  · simp only [delete_note, hfind]
    exact ⟨⟨hnde, hbe⟩, ⟨hndn, hbn⟩, hlink⟩
  · have hi : n0.id = i := by simpa using List.find?_some hfind
    have hpid : ∀ y : Note, (y.id == i) = true ↔ y.id = n0.id := by
      intro y
      simp [hi]
    simp only [delete_note, hfind]
    refine ⟨⟨?_, ?_⟩, ⟨?_, ?_⟩, ?_⟩
    · rw [sync_note_entry_links_map_id]
      exact hnde
    · intro e' he'
      obtain ⟨e, he, hid⟩ := mem_sync_entries_id s.entries i [] e' he'
      rw [hid]
      exact hbe e he
    · exact hndn.sublist ((s.notes.eraseP_sublist).map Note.id)
    · intro n' hn'
      exact hbn n' (mem_eraseP_of_nodupKeys _ Note.id n0 n' _ hndn hfind hpid hn').1
    · refine linkInv_after_entry_sync s i [] _ hlink ?_
      intro n' hn'
      right
      obtain ⟨hmem, hne⟩ := mem_eraseP_of_nodupKeys _ Note.id n0 n' _ hndn hfind hpid hn'
      rw [← hi]
      exact ⟨hmem, hne⟩

/-- The update branch of `save_entry` preserves the store invariant: the
found entry is replaced by an entry with the same id, and the notes are
synced against its final `note_ids`. -/
theorem storeInv_save_entry_update (s : TodoState) (i : Nat) (e0 e2 : Entry)
    (hfind : s.entries.find? (fun e => e.id == i) = some e0)
    (hid : e2.id = e0.id) (hInv : StoreInv s) :
    StoreInv ⟨replaceFirst (fun e => e.id == i) e2 s.entries,
      (sync_entry_note_links s.notes e2.id e2.note_ids).1,
      s.next_entry_id, s.next_note_id⟩ := by
  obtain ⟨⟨hnde, hbe⟩, ⟨hndn, hbn⟩, hlink⟩ := hInv
  have hi : e0.id = i := by simpa using List.find?_some hfind
  have hpid : ∀ y : Entry, (y.id == i) = true ↔ y.id = e0.id := by
    intro y
    simp [hi]
  have he0mem : e0 ∈ s.entries := List.mem_of_find?_eq_some hfind
  refine ⟨⟨?_, ?_⟩, ⟨?_, ?_⟩, ?_⟩
  · rw [map_replaceFirst_eq]
    · exact hnde
    · intro y hy
      rw [hid, (hpid y).mp hy]
  · intro e' he'
    rcases mem_replaceFirst_of_nodupKeys _ Entry.id _ e0 e' _ hnde hfind hpid he'
      with he2 | ⟨hmem, -⟩
    · subst he2
      rw [hid]
      exact hbe e0 he0mem
    · exact hbe e' hmem
  · rw [sync_entry_note_links_map_id]
    exact hndn
  · intro n' hn'
    obtain ⟨n, hn, hidn⟩ := mem_sync_notes_id s.notes e2.id e2.note_ids n' hn'
    rw [hidn]
    exact hbn n hn
  · refine linkInv_after_note_sync s e2.id e2.note_ids _ hlink ?_
    intro e' he'
    rcases mem_replaceFirst_of_nodupKeys _ Entry.id _ e0 e' _ hnde hfind hpid he'
      with he2 | ⟨hmem, hne⟩
    · subst he2
      exact Or.inl ⟨rfl, rfl⟩
    · right
      refine ⟨hmem, ?_⟩
      rw [hid]
      exact hne

/-- The create branch of `save_entry` preserves the store invariant: the
fresh entry takes the counter value, which is above every stored id. -/
theorem storeInv_save_entry_create (s : TodoState) (e2 : Entry)
    (hid : e2.id = s.next_entry_id) (hInv : StoreInv s) :
    StoreInv ⟨s.entries ++ [e2],
      (sync_entry_note_links s.notes e2.id e2.note_ids).1,
      s.next_entry_id + 1, s.next_note_id⟩ := by
  obtain ⟨⟨hnde, hbe⟩, ⟨hndn, hbn⟩, hlink⟩ := hInv
  have hfresh : ∀ e ∈ s.entries, e.id ≠ e2.id := by
    intro e he
    rw [hid]
    exact Nat.ne_of_lt (hbe e he)
  refine ⟨⟨?_, ?_⟩, ⟨?_, ?_⟩, ?_⟩
  · rw [List.map_append, List.nodup_append]
    refine ⟨hnde, by simp, ?_⟩
    intro a ha hb
    rcases List.mem_map.mp ha with ⟨e, he, rfl⟩
    simp only [List.map_cons, List.map_nil, List.mem_cons, List.not_mem_nil, or_false] at hb
    exact hfresh e he hb
  · intro e' he'
    rcases List.mem_append.mp he' with hmem | hmem
    · exact Nat.lt_trans (hbe e' hmem) (Nat.lt_succ_self _)
    · rw [List.mem_singleton] at hmem
      subst hmem
      rw [hid]
      exact Nat.lt_succ_self _
  · rw [sync_entry_note_links_map_id]
    exact hndn
  · intro n' hn'
    obtain ⟨n, hn, hidn⟩ := mem_sync_notes_id s.notes e2.id e2.note_ids n' hn'
    rw [hidn]
    exact hbn n hn
  · refine linkInv_after_note_sync s e2.id e2.note_ids _ hlink ?_
    intro e' he'
    rcases List.mem_append.mp he' with hmem | hmem
    · exact Or.inr ⟨hmem, hfresh e' hmem⟩
    · rw [List.mem_singleton] at hmem
      subst hmem
      exact Or.inl ⟨rfl, rfl⟩

/-- `save_entry` preserves the store invariant. -/
theorem storeInv_save_entry (s : TodoState) (d : EntryDraft) (ld : Int → NDate) (t : NDate)
    (h : StoreInv s) : StoreInv (save_entry s d ld t).1 := by
  by_cases hval : trim d.title = []
  · simp only [save_entry, if_pos hval]
    exact h
  · rcases hdid : d.id with _ | i
    · simp only [save_entry, if_neg hval, hdid]
      exact storeInv_save_entry_create s _ rfl h
    · rcases hfind : s.entries.find? (fun e => e.id == i) with _ | e0
      · simp only [save_entry, if_neg hval, hdid, hfind]
        exact h
      · simp only [save_entry, if_neg hval, hdid, hfind]
        exact storeInv_save_entry_update s i e0 _ hfind rfl h

/-- The update branch of `save_note` preserves the store invariant. -/
theorem storeInv_save_note_update (s : TodoState) (i : Nat) (n0 n2 : Note)
    (hfind : s.notes.find? (fun n => n.id == i) = some n0)
    (hid : n2.id = n0.id) (hInv : StoreInv s) :
    StoreInv ⟨(sync_note_entry_links s.entries n2.id n2.linked_entry_ids).1,
      replaceFirst (fun n => n.id == i) n2 s.notes,
      s.next_entry_id, s.next_note_id⟩ := by
  obtain ⟨⟨hnde, hbe⟩, ⟨hndn, hbn⟩, hlink⟩ := hInv
  have hi : n0.id = i := by simpa using List.find?_some hfind
  have hpid : ∀ y : Note, (y.id == i) = true ↔ y.id = n0.id := by
    intro y
    simp [hi]
  have hn0mem : n0 ∈ s.notes := List.mem_of_find?_eq_some hfind
  refine ⟨⟨?_, ?_⟩, ⟨?_, ?_⟩, ?_⟩
  · rw [sync_note_entry_links_map_id]
    exact hnde
  · intro e' he'
    obtain ⟨e, he, hide⟩ := mem_sync_entries_id s.entries n2.id n2.linked_entry_ids e' he'
    rw [hide]
    exact hbe e he
  · rw [map_replaceFirst_eq]
    · exact hndn
    · intro y hy
      rw [hid, (hpid y).mp hy]
  · intro n' hn'
    rcases mem_replaceFirst_of_nodupKeys _ Note.id _ n0 n' _ hndn hfind hpid hn'
      with hn2 | ⟨hmem, -⟩
    · subst hn2
      rw [hid]
      exact hbn n0 hn0mem
    · exact hbn n' hmem
  · refine linkInv_after_entry_sync s n2.id n2.linked_entry_ids _ hlink ?_
    intro n' hn'
    rcases mem_replaceFirst_of_nodupKeys _ Note.id _ n0 n' _ hndn hfind hpid hn'
      with hn2 | ⟨hmem, hne⟩
    · subst hn2
      exact Or.inl ⟨rfl, rfl⟩
    · right
      refine ⟨hmem, ?_⟩
      rw [hid]
      exact hne

/-- The create branch of `save_note` preserves the store invariant. -/
theorem storeInv_save_note_create (s : TodoState) (n2 : Note)
    (hid : n2.id = s.next_note_id) (hInv : StoreInv s) :
    StoreInv ⟨(sync_note_entry_links s.entries n2.id n2.linked_entry_ids).1,
      s.notes ++ [n2], s.next_entry_id, s.next_note_id + 1⟩ := by
  obtain ⟨⟨hnde, hbe⟩, ⟨hndn, hbn⟩, hlink⟩ := hInv
  have hfresh : ∀ n ∈ s.notes, n.id ≠ n2.id := by
    intro n hn
    rw [hid]
    exact Nat.ne_of_lt (hbn n hn)
  refine ⟨⟨?_, ?_⟩, ⟨?_, ?_⟩, ?_⟩
  · rw [sync_note_entry_links_map_id]
    exact hnde
  · intro e' he'
    obtain ⟨e, he, hide⟩ := mem_sync_entries_id s.entries n2.id n2.linked_entry_ids e' he'
    rw [hide]
    exact hbe e he
  · rw [List.map_append, List.nodup_append]
    refine ⟨hndn, by simp, ?_⟩
    intro a ha hb
    rcases List.mem_map.mp ha with ⟨n, hn, rfl⟩
    simp only [List.map_cons, List.map_nil, List.mem_cons, List.not_mem_nil, or_false] at hb
    exact hfresh n hn hb
  · intro n' hn'
    rcases List.mem_append.mp hn' with hmem | hmem
    · exact Nat.lt_trans (hbn n' hmem) (Nat.lt_succ_self _)
    · rw [List.mem_singleton] at hmem
      subst hmem
      rw [hid]
      exact Nat.lt_succ_self _
  · refine linkInv_after_entry_sync s n2.id n2.linked_entry_ids _ hlink ?_
    intro n' hn'
    rcases List.mem_append.mp hn' with hmem | hmem
    · exact Or.inr ⟨hmem, hfresh n' hmem⟩
    · rw [List.mem_singleton] at hmem
      subst hmem
      exact Or.inl ⟨rfl, rfl⟩

/-- `save_note` preserves the store invariant. -/
theorem storeInv_save_note (s : TodoState) (d : NoteDraft) (now : Int)
    (h : StoreInv s) : StoreInv (save_note s d now).1 := by
  by_cases hval : trim d.title = []
  · simp only [save_note, if_pos hval]
    exact h
  · rcases hdid : d.id with _ | i
    · simp only [save_note, if_neg hval, hdid]
      exact storeInv_save_note_create s
        { id := s.next_note_id
          title := d.title
          content := d.content
          pinned := d.pinned
          tags := d.tags
          linked_entry_ids := d.linked_entry_ids
          summary := summarize_text d.content
          accent := d.accent.getD (random_accent_for d.tags)
          last_edited_ts := now }
        rfl h
    · rcases hfind : s.notes.find? (fun n => n.id == i) with _ | n0
      · simp only [save_note, if_neg hval, hdid, hfind]
        exact h
      · simp only [save_note, if_neg hval, hdid, hfind]
        exact storeInv_save_note_update s i n0
          { n0 with
            title := d.title
            content := d.content
            pinned := d.pinned
            tags := d.tags
            linked_entry_ids := d.linked_entry_ids
            summary := summarize_text d.content
            last_edited_ts := now
            accent := d.accent.getD (random_accent_for d.tags) }
          hfind rfl h

/-- Every command preserves the store invariant. -/
theorem storeInv_applyCmd (s : TodoState) (c : Cmd) (h : StoreInv s) :
    StoreInv (applyCmd s c).1 := by
  cases c with
  | saveEntry d ld t => exact storeInv_save_entry s d ld t h
  | toggleEntryCompletion i c ld t now => exact storeInv_toggle s i c ld t now h
  | deleteEntry i => exact storeInv_delete_entry s i h
  | saveNote d now => exact storeInv_save_note s d now h
  | deleteNote i => exact storeInv_delete_note s i h

/-- The store invariant holds along every command sequence. -/
theorem storeInv_execFrom (cmds : List Cmd) (s : TodoState) (h : StoreInv s) :
    StoreInv (execFrom s cmds) := by
  induction cmds generalizing s with
  | nil => exact h
  | cons c cs ih => exact ih _ (storeInv_applyCmd s c h)

/-- The default empty state satisfies the store invariant. -/
theorem storeInv_initial : StoreInv initialState := by
  refine ⟨⟨?_, ?_⟩, ⟨?_, ?_⟩, ?_⟩ <;> simp [initialState, LinkInv, EntriesOk, NotesOk]

/-- Claim C1: in every state reachable from the default empty store by
any sequence of the five mutating commands, every stored entry `E` and
stored note `N` satisfy `N.id ∈ E.note_ids ↔ E.id ∈ N.linked_entry_ids`
once the command completes. -/
theorem C1_link_invariant (cmds : List Cmd) : LinkInv (execList cmds) :=
  (storeInv_execFrom cmds initialState storeInv_initial).2.2

/-! ## Helper lemmas: counter evolution -/

/-- `save_entry` bumps the entry counter exactly on a successful creation
and never touches the note counter. -/
theorem save_entry_next_ids (s : TodoState) (d : EntryDraft) (ld : Int → NDate) (t : NDate) :
    ((save_entry s d ld t).1.next_entry_id
        = if d.id = none ∧ ¬ trim d.title = [] then s.next_entry_id + 1
          else s.next_entry_id)
      ∧ (save_entry s d ld t).1.next_note_id = s.next_note_id := by
  by_cases hval : trim d.title = []
  · simp [save_entry, hval]
  · rcases hdid : d.id with _ | i
    · simp [save_entry, hval, hdid]
    · rcases hfind : s.entries.find? (fun e => e.id == i) with _ | e0 <;>
        simp [save_entry, hval, hdid, hfind]

/-- `save_note` bumps the note counter exactly on a successful creation
and never touches the entry counter. -/
theorem save_note_next_ids (s : TodoState) (d : NoteDraft) (now : Int) :
    ((save_note s d now).1.next_note_id
        = if d.id = none ∧ ¬ trim d.title = [] then s.next_note_id + 1
          else s.next_note_id)
      ∧ (save_note s d now).1.next_entry_id = s.next_entry_id := by
  by_cases hval : trim d.title = []
  · simp [save_note, hval]
  · rcases hdid : d.id with _ | i
    · simp [save_note, hval, hdid]
    · rcases hfind : s.notes.find? (fun n => n.id == i) with _ | n0 <;>
        simp [save_note, hval, hdid, hfind]

/-- `toggle_entry_completion` touches neither counter. -/
theorem toggle_next_ids (s : TodoState) (i : Nat) (c : Bool) (ld : Int → NDate) (t : NDate)
    (now : Int) :
    (toggle_entry_completion s i c ld t now).1.next_entry_id = s.next_entry_id
      ∧ (toggle_entry_completion s i c ld t now).1.next_note_id = s.next_note_id := by
  rcases hfind : s.entries.find? (fun e => e.id == i) with _ | e0 <;>
    simp [toggle_entry_completion, hfind]

/-- `delete_entry` touches neither counter. -/
theorem delete_entry_next_ids (s : TodoState) (i : Nat) :
    (delete_entry s i).1.next_entry_id = s.next_entry_id
      ∧ (delete_entry s i).1.next_note_id = s.next_note_id := by
  rcases hfind : s.entries.find? (fun e => e.id == i) with _ | e0 <;>
    simp [delete_entry, hfind]

/-- `delete_note` touches neither counter. -/
theorem delete_note_next_ids (s : TodoState) (i : Nat) :
    (delete_note s i).1.next_entry_id = s.next_entry_id
      ∧ (delete_note s i).1.next_note_id = s.next_note_id := by
  rcases hfind : s.notes.find? (fun n => n.id == i) with _ | n0 <;>
    simp [delete_note, hfind]

/-- A successful entry creation returns the counter value as the new id. -/
theorem save_entry_created_id (s : TodoState) (d : EntryDraft) (ld : Int → NDate)
    (t : NDate) (hdid : d.id = none) (hval : ¬ trim d.title = []) :
    ∃ e, (save_entry s d ld t).2.2 = Except.ok e ∧ e.id = s.next_entry_id := by
  simp only [save_entry, if_neg hval, hdid]
  exact ⟨_, rfl, rfl⟩

/-- A creation with a whitespace-only title fails. -/
theorem save_entry_create_failed (s : TodoState) (d : EntryDraft) (ld : Int → NDate)
    (t : NDate) (hval : trim d.title = []) :
    (save_entry s d ld t).2.2 = Except.error ("Entries require a title.".toList) := by
  simp [save_entry, hval]

/-- A successful note creation returns the counter value as the new id. -/
theorem save_note_created_id (s : TodoState) (d : NoteDraft) (now : Int)
    (hdid : d.id = none) (hval : ¬ trim d.title = []) :
    ∃ n, (save_note s d now).2.2 = Except.ok n ∧ n.id = s.next_note_id := by
  simp only [save_note, if_neg hval, hdid]
  exact ⟨_, rfl, rfl⟩

/-- A note creation with a whitespace-only title fails. -/
theorem save_note_create_failed (s : TodoState) (d : NoteDraft) (now : Int)
    (hval : trim d.title = []) :
    (save_note s d now).2.2 = Except.error ("Notes require a title.".toList) := by
  simp [save_note, hval]

/-- The ids of successful entry creations along a command sequence form
the contiguous range starting at the current counter, and the counter
advances by exactly their number. -/
theorem createdEntryIds_spec (cmds : List Cmd) : ∀ s : TodoState,
    createdEntryIds s cmds
        = List.range' s.next_entry_id (createdEntryIds s cmds).length
      ∧ (execFrom s cmds).next_entry_id
        = s.next_entry_id + (createdEntryIds s cmds).length := by
  induction cmds with
  | nil =>
    intro s
    simp [createdEntryIds, execFrom]
  | cons c cs ih =>
    intro s
    obtain ⟨ih1, ih2⟩ := ih (applyCmd s c).1
    have hexec : execFrom s (c :: cs) = execFrom (applyCmd s c).1 cs := rfl
    cases c with
    | saveEntry d ld t =>
      by_cases hdid : d.id = none
      · by_cases hval : trim d.title = []
        · have herr := save_entry_create_failed s d ld t hval
          have hcnt : (applyCmd s (Cmd.saveEntry d ld t)).1.next_entry_id
              = s.next_entry_id := by
            have hc := (save_entry_next_ids s d ld t).1
            rw [if_neg (by simp [hval])] at hc
            exact hc
          have hlist : createdEntryIds s (Cmd.saveEntry d ld t :: cs)
              = createdEntryIds (applyCmd s (Cmd.saveEntry d ld t)).1 cs := by
            simp [createdEntryIds, hdid, herr]
          constructor
          · rw [hlist]
            conv_lhs => rw [ih1]
            rw [hcnt]
          · rw [hexec, ih2, hcnt, hlist]
        · obtain ⟨e, hok, hide⟩ := save_entry_created_id s d ld t hdid hval
          have hcnt : (applyCmd s (Cmd.saveEntry d ld t)).1.next_entry_id
              = s.next_entry_id + 1 := by
            have hc := (save_entry_next_ids s d ld t).1
            rw [if_pos ⟨hdid, hval⟩] at hc
            exact hc
          have hlist : createdEntryIds s (Cmd.saveEntry d ld t :: cs)
              = e.id :: createdEntryIds (applyCmd s (Cmd.saveEntry d ld t)).1 cs := by
            simp [createdEntryIds, hdid, hok]
          constructor
          · rw [hlist, List.length_cons, List.range'_succ, hide]
            congr 1
            conv_lhs => rw [ih1]
            rw [hcnt]
          · rw [hexec, ih2, hcnt, hlist]
            simp only [List.length_cons]
            omega
      · have hcnt : (applyCmd s (Cmd.saveEntry d ld t)).1.next_entry_id
            = s.next_entry_id := by
          have hc := (save_entry_next_ids s d ld t).1
          rw [if_neg (by simp [hdid])] at hc
          exact hc
        have hlist : createdEntryIds s (Cmd.saveEntry d ld t :: cs)
            = createdEntryIds (applyCmd s (Cmd.saveEntry d ld t)).1 cs := by
          simp [createdEntryIds, hdid]
        constructor
        · rw [hlist]
          conv_lhs => rw [ih1]
          rw [hcnt]
        · rw [hexec, ih2, hcnt, hlist]
    | toggleEntryCompletion i b ld t now =>
      have hcnt : (applyCmd s (Cmd.toggleEntryCompletion i b ld t now)).1.next_entry_id
          = s.next_entry_id := (toggle_next_ids s i b ld t now).1
      have hlist : createdEntryIds s (Cmd.toggleEntryCompletion i b ld t now :: cs)
          = createdEntryIds (applyCmd s (Cmd.toggleEntryCompletion i b ld t now)).1 cs := by
        simp [createdEntryIds]
      constructor
      · rw [hlist]
        conv_lhs => rw [ih1]
        rw [hcnt]
      · rw [hexec, ih2, hcnt, hlist]
    | deleteEntry i =>
      have hcnt : (applyCmd s (Cmd.deleteEntry i)).1.next_entry_id
          = s.next_entry_id := (delete_entry_next_ids s i).1
      have hlist : createdEntryIds s (Cmd.deleteEntry i :: cs)
          = createdEntryIds (applyCmd s (Cmd.deleteEntry i)).1 cs := by
        simp [createdEntryIds]
      constructor
      · rw [hlist]
        conv_lhs => rw [ih1]
        rw [hcnt]
      · rw [hexec, ih2, hcnt, hlist]
    | saveNote d now =>
      have hcnt : (applyCmd s (Cmd.saveNote d now)).1.next_entry_id
          = s.next_entry_id := (save_note_next_ids s d now).2
      have hlist : createdEntryIds s (Cmd.saveNote d now :: cs)
          = createdEntryIds (applyCmd s (Cmd.saveNote d now)).1 cs := by
        simp [createdEntryIds]
      constructor
      · rw [hlist]
        conv_lhs => rw [ih1]
        rw [hcnt]
      · rw [hexec, ih2, hcnt, hlist]
    | deleteNote i =>
      have hcnt : (applyCmd s (Cmd.deleteNote i)).1.next_entry_id
          = s.next_entry_id := (delete_note_next_ids s i).1
      have hlist : createdEntryIds s (Cmd.deleteNote i :: cs)
          = createdEntryIds (applyCmd s (Cmd.deleteNote i)).1 cs := by
        simp [createdEntryIds]
      constructor
      · rw [hlist]
        conv_lhs => rw [ih1]
        rw [hcnt]
      · rw [hexec, ih2, hcnt, hlist]

/-- The ids of successful note creations along a command sequence form
the contiguous range starting at the current note counter, and the note
counter advances by exactly their number. -/
theorem createdNoteIds_spec (cmds : List Cmd) : ∀ s : TodoState,
    createdNoteIds s cmds
        = List.range' s.next_note_id (createdNoteIds s cmds).length
      ∧ (execFrom s cmds).next_note_id
        = s.next_note_id + (createdNoteIds s cmds).length := by
  induction cmds with
  | nil =>
    intro s
    simp [createdNoteIds, execFrom]
  | cons c cs ih =>
    intro s
    obtain ⟨ih1, ih2⟩ := ih (applyCmd s c).1
    have hexec : execFrom s (c :: cs) = execFrom (applyCmd s c).1 cs := rfl
    cases c with
    | saveNote d now =>
      by_cases hdid : d.id = none
      · by_cases hval : trim d.title = []
        · have herr := save_note_create_failed s d now hval
          have hcnt : (applyCmd s (Cmd.saveNote d now)).1.next_note_id
              = s.next_note_id := by
            have hc := (save_note_next_ids s d now).1
            rw [if_neg (by simp [hval])] at hc
            exact hc
          have hlist : createdNoteIds s (Cmd.saveNote d now :: cs)
              = createdNoteIds (applyCmd s (Cmd.saveNote d now)).1 cs := by
            simp [createdNoteIds, hdid, herr]
          constructor
          · rw [hlist]
            conv_lhs => rw [ih1]
            rw [hcnt]
          · rw [hexec, ih2, hcnt, hlist]
        · obtain ⟨n, hok, hidn⟩ := save_note_created_id s d now hdid hval
          have hcnt : (applyCmd s (Cmd.saveNote d now)).1.next_note_id
              = s.next_note_id + 1 := by
            have hc := (save_note_next_ids s d now).1
            rw [if_pos ⟨hdid, hval⟩] at hc
            exact hc
          have hlist : createdNoteIds s (Cmd.saveNote d now :: cs)
              = n.id :: createdNoteIds (applyCmd s (Cmd.saveNote d now)).1 cs := by
            simp [createdNoteIds, hdid, hok]
          constructor
          · rw [hlist, List.length_cons, List.range'_succ, hidn]
            congr 1
            conv_lhs => rw [ih1]
            rw [hcnt]
          · rw [hexec, ih2, hcnt, hlist]
            simp only [List.length_cons]
            omega
      · have hcnt : (applyCmd s (Cmd.saveNote d now)).1.next_note_id
            = s.next_note_id := by
          have hc := (save_note_next_ids s d now).1
          rw [if_neg (by simp [hdid])] at hc
          exact hc
        have hlist : createdNoteIds s (Cmd.saveNote d now :: cs)
            = createdNoteIds (applyCmd s (Cmd.saveNote d now)).1 cs := by
          simp [createdNoteIds, hdid]
        constructor
        · rw [hlist]
          conv_lhs => rw [ih1]
          rw [hcnt]
        · rw [hexec, ih2, hcnt, hlist]
    | saveEntry d ld t =>
      have hcnt : (applyCmd s (Cmd.saveEntry d ld t)).1.next_note_id
          = s.next_note_id := (save_entry_next_ids s d ld t).2
      have hlist : createdNoteIds s (Cmd.saveEntry d ld t :: cs)
          = createdNoteIds (applyCmd s (Cmd.saveEntry d ld t)).1 cs := by
        simp [createdNoteIds]
      constructor
      · rw [hlist]
        conv_lhs => rw [ih1]
        rw [hcnt]
      · rw [hexec, ih2, hcnt, hlist]
    | toggleEntryCompletion i b ld t now =>
      have hcnt : (applyCmd s (Cmd.toggleEntryCompletion i b ld t now)).1.next_note_id
          = s.next_note_id := (toggle_next_ids s i b ld t now).2
      have hlist : createdNoteIds s (Cmd.toggleEntryCompletion i b ld t now :: cs)
          = createdNoteIds (applyCmd s (Cmd.toggleEntryCompletion i b ld t now)).1 cs := by
        simp [createdNoteIds]
      constructor
      · rw [hlist]
        conv_lhs => rw [ih1]
        rw [hcnt]
      · rw [hexec, ih2, hcnt, hlist]
    | deleteEntry i =>
      have hcnt : (applyCmd s (Cmd.deleteEntry i)).1.next_note_id
          = s.next_note_id := (delete_entry_next_ids s i).2
      have hlist : createdNoteIds s (Cmd.deleteEntry i :: cs)
          = createdNoteIds (applyCmd s (Cmd.deleteEntry i)).1 cs := by
        simp [createdNoteIds]
      constructor
      · rw [hlist]
        conv_lhs => rw [ih1]
        rw [hcnt]
      · rw [hexec, ih2, hcnt, hlist]
    | deleteNote i =>
      have hcnt : (applyCmd s (Cmd.deleteNote i)).1.next_note_id
          = s.next_note_id := (delete_note_next_ids s i).2
      have hlist : createdNoteIds s (Cmd.deleteNote i :: cs)
          = createdNoteIds (applyCmd s (Cmd.deleteNote i)).1 cs := by
        simp [createdNoteIds]
      constructor
      · rw [hlist]
        conv_lhs => rw [ih1]
        rw [hcnt]
      · rw [hexec, ih2, hcnt, hlist]

/-- Claim C7: from the default state, under any interleaving of the five
commands, the ids assigned by successful entry creations are exactly
`1, 2, 3, …` in order (so each is strictly greater than every id assigned
before and no id is ever reused, deletions included), and the note
counter behaves identically and independently. -/
theorem C7_id_monotonic (cmds : List Cmd) :
    createdEntryIds initialState cmds
        = List.range' 1 (createdEntryIds initialState cmds).length
      ∧ createdNoteIds initialState cmds
        = List.range' 1 (createdNoteIds initialState cmds).length :=
  ⟨(createdEntryIds_spec cmds initialState).1, (createdNoteIds_spec cmds initialState).1⟩
